import Mathlib

/-!
Verification of the kaiak terraform provider core (schema translation,
value coercion, state reconciliation and the CRUD instance controller)
against its natural-language specification.

The Go source is shallowly embedded: Go maps become association lists
(insert-replace semantics), `any` JSON-like dynamic values become the
inductive `KValue`, terraform `attr.Value`s become the inductive
`TFValue`, and each Go function is translated to an executable Lean
definition of the same name.
-/

namespace Kaiak

/-- Models `schema.Attribute` from go-server's provider schema package:
the remote-reported descriptor for one configurable value
(name, type tag, description, and the four boolean flags). -/
structure KAttribute where
  name : String
  type : String
  description : String := ""
  required : Bool := false
  readOnly : Bool := false
  sensitive : Bool := false
  reference : Bool := false
deriving DecidableEq, Repr

/-- Models `attrInfo` (schema.go lines 24-29): the link between one kaiak
attribute and its terraform location (block, field). -/
structure AttrInfo where
  kaiakName : String
  tfBlock : String
  tfField : String
  attr : KAttribute
deriving DecidableEq, Repr

/-- Splits a character list at the first `'.'`, returning the part before
and the part after; `none` when there is no dot. Models
`strings.SplitN(s, ".", 2)` (where `none` corresponds to a single part). -/
def breakDot : List Char → Option (List Char × List Char)
  | [] => none
  | c :: cs =>
    if c = '.' then some ([], cs)
    else match breakDot cs with
      | none => none
      | some (pre, post) => some (c :: pre, post)

/-- Replaces every `'.'` by `'_'`; models
`strings.ReplaceAll(s, ".", "_")` on the field part of a dotted name. -/
def undot (cs : List Char) : List Char :=
  cs.map fun c => if c = '.' then '_' else c

/-- Models `newAttrInfo` (schema.go lines 300-309): dotted names split at
the first dot into block + field, remaining dots become underscores;
names without a dot become a top-level field. -/
def newAttrInfo (a : KAttribute) : AttrInfo :=
  match breakDot a.name.toList with
  | some (pre, post) =>
    { kaiakName := a.name, tfBlock := String.mk pre
      tfField := String.mk (undot post), attr := a }
  | none =>
    { kaiakName := a.name, tfBlock := "", tfField := a.name, attr := a }

/-- Models the terraform `attr.Type` values produced by the provider:
primitive types plus element-typed lists, maps and objects. -/
inductive AttrType where
  | boolT : AttrType
  | int64T : AttrType
  | float64T : AttrType
  | stringT : AttrType
  | listT : AttrType → AttrType
  | mapT : AttrType → AttrType
  | objT : List (String × AttrType) → AttrType

mutual

/-- Structural equality of terraform types; models `attr.Type.Equal`. -/
def AttrType.beq : AttrType → AttrType → Bool
  | .boolT, .boolT => true
  | .int64T, .int64T => true
  | .float64T, .float64T => true
  | .stringT, .stringT => true
  | .listT a, .listT b => AttrType.beq a b
  | .mapT a, .mapT b => AttrType.beq a b
  | .objT xs, .objT ys => AttrType.beqFields xs ys
  | _, _ => false

/-- Field-wise equality of object attribute types. -/
def AttrType.beqFields : List (String × AttrType) → List (String × AttrType) → Bool
  | [], [] => true
  | (k, a) :: xs, (k', b) :: ys =>
    k = k' && AttrType.beq a b && AttrType.beqFields xs ys
  | _, _ => false

end

/-- Splits a character list at the first `']'`, returning the part before
and the part after; `none` when there is no `']'`. Models
`strings.Index(t, "]")` together with the slice `t[idx+1:]`. -/
def breakRBracket : List Char → Option (List Char × List Char)
  | [] => none
  | c :: cs =>
    if c = ']' then some ([], cs)
    else match breakRBracket cs with
      | none => none
      | some (pre, post) => some (c :: pre, post)

theorem breakRBracket_length_lt {l pre post : List Char}
    (h : breakRBracket l = some (pre, post)) : post.length < l.length := by
  induction l generalizing pre post with
  | nil => simp [breakRBracket] at h
  | cons c cs ih =>
    simp only [breakRBracket] at h
    split at h
    · simp only [Option.some.injEq, Prod.mk.injEq] at h
      simp [← h.2, Nat.lt_succ_of_le, Nat.le_refl]
    · cases hcs : breakRBracket cs with
      | none => simp [hcs] at h
      | some pr =>
        obtain ⟨pre', post'⟩ := pr
        simp only [hcs, Option.some.injEq, Prod.mk.injEq] at h
        have := ih hcs
        simp only [← h.2]
        exact Nat.lt_succ_of_lt this

mutual

/-- Models `kaiakTypeToAttrType` (schema.go lines 157-172), working over
the character list of the kaiak type tag. -/
def kaiakTypeToAttrTypeL (l : List Char) : AttrType :=
  if l = "bool".toList then .boolT
  else if l = "int".toList then .int64T
  else if l = "uint".toList then .int64T
  else if l = "float".toList then .float64T
  else
    match l with
    | '[' :: ']' :: rest => .listT (kaiakTypeToAttrTypeL rest)
    | 'm' :: 'a' :: 'p' :: '[' :: rest => .mapT (kaiakMapElemTypeL ('m' :: 'a' :: 'p' :: '[' :: rest))
    | _ => .stringT
termination_by (l.length, 1)

/-- Models `kaiakMapElemType` (schema.go lines 176-181): the value type of
a kaiak map type string such as `map[string]int`; `StringType` when the
tag is malformed. -/
def kaiakMapElemTypeL (l : List Char) : AttrType :=
  match h : breakRBracket l with
  | some (_, rest) =>
    if rest.isEmpty then .stringT
    else kaiakTypeToAttrTypeL rest
  | none => .stringT
termination_by (l.length, 0)
decreasing_by
  simp_wf
  exact Prod.Lex.left _ _ (breakRBracket_length_lt h)

end

/-- String-level wrapper for `kaiakTypeToAttrTypeL`. -/
def kaiakTypeToAttrType (t : String) : AttrType :=
  kaiakTypeToAttrTypeL t.toList

/-- String-level wrapper for `kaiakMapElemTypeL`. -/
def kaiakMapElemType (t : String) : AttrType :=
  kaiakMapElemTypeL t.toList

/-- True when the tag starts with `"[]"`; models
`strings.HasPrefix(t, "[]")`. -/
def isListTag (t : String) : Bool :=
  match t.toList with
  | '[' :: ']' :: _ => true
  | _ => false

/-- True when the tag starts with `"map["`; models
`strings.HasPrefix(t, "map[")`. -/
def isMapTag (t : String) : Bool :=
  match t.toList with
  | 'm' :: 'a' :: 'p' :: '[' :: _ => true
  | _ => false

/-- The element tag of a list tag: models `t[2:]`. -/
def listElemTag (t : String) : String :=
  String.mk (t.toList.drop 2)

/-- The value tag of a map tag when well formed: models the guard
`idx := strings.Index(t, "]"); idx >= 0 && idx+1 < len(t)` and the slice
`t[idx+1:]`. -/
def mapValTag (t : String) : Option String :=
  match breakRBracket t.toList with
  | some (_, rest) => if rest.isEmpty then none else some (String.mk rest)
  | none => none

/-- Diagnostic severity of the terraform plugin framework. -/
inductive Severity where
  | error : Severity
  | warning : Severity
deriving DecidableEq, Repr

/-- Models `diag.Diagnostic`: a severity, a summary and a detail string. -/
structure Diagnostic where
  severity : Severity
  summary : String
  detail : String
deriving DecidableEq, Repr

/-- Models `diag.Diagnostics.AddError`. -/
def addError (d : List Diagnostic) (summary detail : String) : List Diagnostic :=
  d ++ [{ severity := .error, summary := summary, detail := detail }]

/-- Models `diag.Diagnostics.AddWarning`. -/
def addWarning (d : List Diagnostic) (summary detail : String) : List Diagnostic :=
  d ++ [{ severity := .warning, summary := summary, detail := detail }]

/-- Models `diag.Diagnostics.HasError`. -/
def hasError (d : List Diagnostic) : Bool :=
  d.any fun x => x.severity = .error

/-- Models a `tfschema.Attribute`: either one of the six leaf attribute
kinds produced by `kaiakAttrToTF` (the kind is captured by its `AttrType`
together with the four policy flags), the fixed reserved `name`/`id`
string attributes (which additionally carry plan modifiers, represented
by the `mods` field), or a `SingleNestedAttribute` block. -/
inductive TFAttribute where
  | leaf (ty : AttrType) (description : String)
      (required optionalF computed sensitive : Bool) (mods : List String)
  | nested (attrs : List (String × TFAttribute))
      (required optionalF computed : Bool)

/-- Models `tfschema.Schema`. -/
structure TFSchema where
  description : String
  attributes : List (String × TFAttribute)

/-- Association-list lookup, modelling a read from a Go string-keyed map. -/
def lookupA {α : Type} : List (String × α) → String → Option α
  | [], _ => none
  | (k, v) :: rest, key => if k = key then some v else lookupA rest key

/-- Association-list insert-replace, modelling a write to a Go
string-keyed map: an existing key's value is replaced in place, a new key
is appended. -/
def insertA {α : Type} : List (String × α) → String → α → List (String × α)
  | [], key, v => [(key, v)]
  | (k, w) :: rest, key, v =>
    if k = key then (k, v) :: rest else (k, w) :: insertA rest key v

/-- Models `kaiakAttrToTF` (schema.go lines 314-369): optional attributes
are also marked computed so the server may supply defaults. -/
def kaiakAttrToTF (a : KAttribute) : TFAttribute :=
  let opt := !a.required && !a.readOnly
  let computed := a.readOnly || opt
  if a.type = "bool" then
    .leaf .boolT a.description a.required opt computed a.sensitive []
  else if a.type = "int" ∨ a.type = "uint" then
    .leaf .int64T a.description a.required opt computed a.sensitive []
  else if a.type = "float" then
    .leaf .float64T a.description a.required opt computed a.sensitive []
  else if isListTag a.type then
    .leaf (.listT (kaiakTypeToAttrType (listElemTag a.type)))
      a.description a.required opt computed a.sensitive []
  else if isMapTag a.type then
    .leaf (.mapT (kaiakMapElemType a.type))
      a.description a.required opt computed a.sensitive []
  else
    .leaf .stringT a.description a.required opt computed a.sensitive []

/-- The reserved-or-collision detection loop of `buildResourceSchema`
(schema.go lines 45-68). State: `seen` maps "block/field" keys to the
original kaiak name, `infos` accumulates accepted attributes, `diags`
accumulates error diagnostics. -/
def buildLoop (resourceName : String) :
    List KAttribute → List (String × String) → List AttrInfo →
    List Diagnostic → List (String × String) × List AttrInfo × List Diagnostic
  | [], seen, infos, diags => (seen, infos, diags)
  | a :: rest, seen, infos, diags =>
    let info := newAttrInfo a
    if info.tfBlock = "" ∧ (info.tfField = "name" ∨ info.tfField = "id") then
      buildLoop resourceName rest seen infos
        (addError diags "Reserved attribute name"
          ("Resource " ++ resourceName ++ ": attribute " ++ a.name ++
            " conflicts with reserved terraform attribute " ++ info.tfField))
    else
      let key := info.tfBlock ++ "/" ++ info.tfField
      match lookupA seen key with
      | some prev =>
        buildLoop resourceName rest seen infos
          (addError diags "Attribute naming collision"
            ("Resource " ++ resourceName ++ ": attributes " ++ prev ++
              " and " ++ a.name ++ " both map to terraform field " ++
              info.tfField ++ " (block " ++ info.tfBlock ++ ")"))
      | none =>
        buildLoop resourceName rest (insertA seen key a.name)
          (infos ++ [info]) diags

/-- The fixed reserved `name` attribute (schema.go lines 76-82): a
required string with a replace-on-change plan modifier. -/
def nameAttribute : TFAttribute :=
  .leaf .stringT "Instance label (e.g. main)." true false false false
    ["RequiresReplace"]

/-- The fixed reserved `id` attribute (schema.go lines 83-89): a computed
string with a use-state-for-unknown plan modifier. -/
def idAttribute : TFAttribute :=
  .leaf .stringT "Fully qualified instance name (resource_type.label)." false false true false
    ["UseStateForUnknown"]

/-- True for the six leaf attribute kinds when the attribute is marked
required; models the type switch of schema.go lines 111-137 (a nested
attribute matches none of the six cases and so never counts). -/
def leafRequired : TFAttribute → Bool
  | .leaf _ _ required _ _ _ _ => required
  | .nested _ _ _ _ => false

/-- Inserts a (field, attribute) pair into the group of its block,
modelling the two-level map write `blocks[info.tfBlock][info.tfField] =
tfAttr` of schema.go lines 97-101. Blocks are kept in first-insertion
order; since distinct blocks have distinct keys in the final attribute
map, this order never affects the resulting schema. -/
def insertGroup (blocks : List (String × List (String × TFAttribute)))
    (blockName field : String) (v : TFAttribute) :
    List (String × List (String × TFAttribute)) :=
  match lookupA blocks blockName with
  | some battrs => insertA blocks blockName (insertA battrs field v)
  | none => blocks ++ [(blockName, [(field, v)])]

/-- The top-level half of the info loop of schema.go lines 95-105: a
block-less attribute is written into the top-level terraform attribute
map. -/
def topStep (tfAttrs : List (String × TFAttribute)) (info : AttrInfo) :
    List (String × TFAttribute) :=
  if info.tfBlock ≠ "" then tfAttrs
  else insertA tfAttrs info.tfField (kaiakAttrToTF info.attr)

/-- The block half of the info loop of schema.go lines 95-105: a block
member is grouped under its block name. -/
def groupStep (blocks : List (String × List (String × TFAttribute)))
    (info : AttrInfo) : List (String × List (String × TFAttribute)) :=
  if info.tfBlock ≠ "" then
    insertGroup blocks info.tfBlock info.tfField (kaiakAttrToTF info.attr)
  else blocks

/-- The `required` flag computed for a block by the loop of schema.go
lines 110-138: some grouped member attribute is a required leaf. -/
def blockAnyRequired (battrs : List (String × TFAttribute)) : Bool :=
  battrs.any fun p => leafRequired p.2

/-- One iteration of the block-conversion loop of schema.go lines
109-145: the grouped members become a single nested attribute, required
exactly when some member is required, optional and computed otherwise. -/
def blockStep (tfAttrs : List (String × TFAttribute))
    (bg : String × List (String × TFAttribute)) :
    List (String × TFAttribute) :=
  let required := blockAnyRequired bg.2
  insertA tfAttrs bg.1 (.nested bg.2 required (!required) (!required))

/-- True for the six leaf attribute kinds, false for nested blocks. -/
def isLeafTF : TFAttribute → Bool
  | .leaf _ _ _ _ _ _ _ => true
  | .nested _ _ _ _ => false

/-- A string-keyed association list with pairwise-distinct keys, the
shape every Go map model in this development maintains. -/
def NoDupKeys {α : Type} (l : List (String × α)) : Prop :=
  l.Pairwise fun p q => p.1 ≠ q.1

/-- Models `buildResourceSchema` (schema.go lines 38-151). Returns the
terraform schema, the attrInfo table (`none` models the `nil` slice of
the error path) and the diagnostics. The source's single info loop
writes the two disjoint structures (top-level map, block groups) in one
pass; here each structure is computed by its own fold over the same
infos, which yields the same maps. -/
def buildResourceSchema (resourceName : String) (kaiakAttrs : List KAttribute) :
    TFSchema × Option (List AttrInfo) × List Diagnostic :=
  let r := buildLoop resourceName kaiakAttrs [] [] []
  let infos := r.2.1
  let diags := r.2.2
  if hasError diags then
    ({ description := "", attributes := [] }, none, diags)
  else
    let tfAttrs0 : List (String × TFAttribute) :=
      [("name", nameAttribute), ("id", idAttribute)]
    let tfAttrs1 := infos.foldl topStep tfAttrs0
    let blocks := infos.foldl groupStep []
    let tfAttrs := blocks.foldl blockStep tfAttrs1
    ({ description := "Manages a " ++ resourceName ++
        " resource instance on a running Kaiak server."
       attributes := tfAttrs }, some infos, diags)

/-- Models a Go `any` value holding decoded JSON-like data: booleans,
numbers (a JSON number decodes to a Go `float64`, modelled as a rational;
`vint` models a Go `int`), strings, `[]interface` slices and
`map[string]interface` maps. Go `nil` is modelled by `Option.none` at
use sites. -/
inductive KValue where
  | vbool (b : Bool)
  | vint (n : Int)
  | vfloat (q : Rat)
  | vstring (s : String)
  | vlist (xs : List KValue)
  | vmap (m : List (String × KValue))

/-- Models a terraform `attr.Value`: each framework type has a known, a
null and an unknown form; lists, maps and objects carry their element or
attribute types as the framework values do. -/
inductive TFValue where
  | boolV (b : Bool)
  | boolNull
  | boolUnknown
  | int64V (n : Int)
  | int64Null
  | int64Unknown
  | float64V (q : Rat)
  | float64Null
  | float64Unknown
  | stringV (s : String)
  | stringNull
  | stringUnknown
  | listV (ty : AttrType) (xs : List TFValue)
  | listNull (ty : AttrType)
  | listUnknown (ty : AttrType)
  | mapV (ty : AttrType) (m : List (String × TFValue))
  | mapNull (ty : AttrType)
  | mapUnknown (ty : AttrType)
  | objV (tys : List (String × AttrType)) (m : List (String × TFValue))
  | objNull (tys : List (String × AttrType))
  | objUnknown (tys : List (String × AttrType))

/-- Models `attr.Value.Type`: the terraform type of a framework value. -/
def typeOfTF : TFValue → AttrType
  | .boolV _ => .boolT
  | .boolNull => .boolT
  | .boolUnknown => .boolT
  | .int64V _ => .int64T
  | .int64Null => .int64T
  | .int64Unknown => .int64T
  | .float64V _ => .float64T
  | .float64Null => .float64T
  | .float64Unknown => .float64T
  | .stringV _ => .stringT
  | .stringNull => .stringT
  | .stringUnknown => .stringT
  | .listV ty _ => .listT ty
  | .listNull ty => .listT ty
  | .listUnknown ty => .listT ty
  | .mapV ty _ => .mapT ty
  | .mapNull ty => .mapT ty
  | .mapUnknown ty => .mapT ty
  | .objV tys _ => .objT tys
  | .objNull tys => .objT tys
  | .objUnknown tys => .objT tys

/-- Lexicographic byte order on strings, used because Go's `fmt` package
prints map keys in sorted order. -/
def charListLe : List Char → List Char → Bool
  | [], _ => true
  | _ :: _, [] => false
  | a :: as, b :: bs =>
    if a.toNat < b.toNat then true
    else if b.toNat < a.toNat then false
    else charListLe as bs

/-- Insertion into a key-sorted list of rendered map entries. -/
def insertSorted (p : String × String) :
    List (String × String) → List (String × String)
  | [] => [p]
  | q :: rest =>
    if charListLe p.1.toList q.1.toList then p :: q :: rest
    else q :: insertSorted p rest

/-- Insertion sort of rendered map entries by key. -/
def sortByKey : List (String × String) → List (String × String)
  | [] => []
  | p :: rest => insertSorted p (sortByKey rest)

/-- Models `fmt.Sprintf` with the `v` verb on a dynamic value. The
rendering of a float64 is a stand-in for Go's decimal formatting (no
claim depends on its exact digits); lists render space-separated in
brackets and maps render with sorted `key:value` entries, as Go's fmt
does. -/
def render : KValue → String
  | .vbool b => if b then "true" else "false"
  | .vint n => toString n
  | .vfloat q => if q.den = 1 then toString q.num
      else toString q.num ++ "/" ++ toString q.den
  | .vstring s => s
  | .vlist xs =>
    "[" ++ String.intercalate " " (xs.attach.map fun x => render x.1) ++ "]"
  | .vmap m =>
    let rendered := m.attach.map fun p => (p.1.1, render p.1.2)
    "map[" ++ String.intercalate " "
      ((sortByKey rendered).map fun p => p.1 ++ ":" ++ p.2) ++ "]"
termination_by v => sizeOf v
decreasing_by
  · have := List.sizeOf_lt_of_mem x.2
    simp_wf
    omega
  · have := List.sizeOf_lt_of_mem p.2
    have h2 : sizeOf p.1.2 < sizeOf p.1 := by
      obtain ⟨a, b⟩ := p.1
      simp
      try omega
    simp_wf
    omega

/-- Models `kaiakNullValue` (schema.go lines 278-293): the strongly typed
null for a kaiak type tag. -/
def kaiakNullValue (t : String) : TFValue :=
  if t = "bool" then .boolNull
  else if t = "int" ∨ t = "uint" then .int64Null
  else if t = "float" then .float64Null
  else if isListTag t then .listNull (kaiakTypeToAttrType (listElemTag t))
  else if isMapTag t then .mapNull (kaiakMapElemType t)
  else .stringNull

/-- A point-in-time timestamp as parsed from an RFC 3339 string; the
zone offset is in minutes east of UTC. Fractional seconds are accepted
by the parser but not stored, because Go's RFC 3339 output format has
no fractional second. -/
structure Timestamp where
  year : Nat
  month : Nat
  day : Nat
  hour : Nat
  minute : Nat
  second : Nat
  offsetMin : Int
deriving DecidableEq, Repr

/-- Reads one decimal digit. -/
def digitVal (c : Char) : Option Nat :=
  if '0' ≤ c ∧ c ≤ '9' then some (c.toNat - 48) else none

/-- Reads exactly two decimal digits. -/
def readD2 : List Char → Option (Nat × List Char)
  | a :: b :: rest => do
    let x ← digitVal a
    let y ← digitVal b
    pure (x * 10 + y, rest)
  | _ => none

/-- Reads exactly four decimal digits. -/
def readD4 : List Char → Option (Nat × List Char)
  | a :: b :: c :: d :: rest => do
    let x ← digitVal a
    let y ← digitVal b
    let z ← digitVal c
    let w ← digitVal d
    pure (((x * 10 + y) * 10 + z) * 10 + w, rest)
  | _ => none

/-- Expects one literal character. -/
def expectChar (c : Char) : List Char → Option (List Char)
  | [] => none
  | x :: rest => if x = c then some rest else none

/-- Gregorian leap-year rule. -/
def isLeapYear (y : Nat) : Bool :=
  y % 4 = 0 && (y % 100 ≠ 0 || y % 400 = 0)

/-- Days in a month of the Gregorian calendar. -/
def daysInMonth (y m : Nat) : Nat :=
  if m = 2 then (if isLeapYear y then 29 else 28)
  else if m = 4 ∨ m = 6 ∨ m = 9 ∨ m = 11 then 30
  else 31

/-- Consumes an optional fractional-second suffix: a period followed by
one to nine digits (Go's parser reads at most nine fractional digits and
a stray period or a tenth digit makes the subsequent zone parse fail). -/
def skipFraction (cs : List Char) : Option (List Char) :=
  match cs with
  | '.' :: rest =>
    let digs := rest.takeWhile fun c => '0' ≤ c ∧ c ≤ '9'
    if 1 ≤ digs.length ∧ digs.length ≤ 9 then
      some (rest.dropWhile fun c => '0' ≤ c ∧ c ≤ '9')
    else none
  | _ => some cs

/-- Parses the zone suffix: `Z` or a signed `hh:mm` offset with the hour
in 0..23 and the minute in 0..59, consuming the whole remainder. -/
def parseZone : List Char → Option Int
  | ['Z'] => some 0
  | c :: rest =>
    if c = '+' ∨ c = '-' then do
      let (zh, r1) ← readD2 rest
      let r2 ← expectChar ':' r1
      let (zm, r3) ← readD2 r2
      if r3 = [] ∧ zh ≤ 23 ∧ zm ≤ 59 then
        let total : Int := zh * 60 + zm
        pure (if c = '-' then -total else total)
      else none
    else none
  | _ => none

/-- Modelled from Go's standard library: `time.Parse(time.RFC3339, s)`,
the fixed interchange timestamp format used by schema.go line 214.
Accepts `yyyy-mm-ddThh:mm:ss` with an optional fraction and a `Z` or
signed `hh:mm` zone, validating the calendar and clock ranges as Go's
parser does; returns `none` exactly when Go returns a parse error. -/
def parseRFC3339 (s : String) : Option Timestamp := do
  let cs := s.toList
  let (y, r1) ← readD4 cs
  let r2 ← expectChar '-' r1
  let (mo, r3) ← readD2 r2
  let r4 ← expectChar '-' r3
  let (d, r5) ← readD2 r4
  let r6 ← expectChar 'T' r5
  let (h, r7) ← readD2 r6
  let r8 ← expectChar ':' r7
  let (mi, r9) ← readD2 r8
  let r10 ← expectChar ':' r9
  let (se, r11) ← readD2 r10
  let r12 ← skipFraction r11
  let ofs ← parseZone r12
  if 1 ≤ mo ∧ mo ≤ 12 ∧ 1 ≤ d ∧ d ≤ daysInMonth y mo ∧
      h ≤ 23 ∧ mi ≤ 59 ∧ se ≤ 59 then
    pure { year := y, month := mo, day := d, hour := h, minute := mi
           second := se, offsetMin := ofs }
  else none

/-- Zero-pads a number to two digits. -/
def pad2 (n : Nat) : String :=
  if n < 10 then "0" ++ toString n else toString n

/-- Zero-pads a number to four digits. -/
def pad4 (n : Nat) : String :=
  if n < 10 then "000" ++ toString n
  else if n < 100 then "00" ++ toString n
  else if n < 1000 then "0" ++ toString n
  else toString n

/-- Modelled from Go's standard library: `t.Format(time.RFC3339)` as
used by schema.go line 215. A zero offset prints as `Z`; fractional
seconds are never printed. -/
def formatRFC3339 (ts : Timestamp) : String :=
  pad4 ts.year ++ "-" ++ pad2 ts.month ++ "-" ++ pad2 ts.day ++ "T" ++
    pad2 ts.hour ++ ":" ++ pad2 ts.minute ++ ":" ++ pad2 ts.second ++
    (if ts.offsetMin = 0 then "Z"
     else (if ts.offsetMin < 0 then "-" else "+") ++
       pad2 (ts.offsetMin.natAbs / 60) ++ ":" ++ pad2 (ts.offsetMin.natAbs % 60))

mutual

/-- Models `kaiakValueToTF` (schema.go lines 184-231): converts a kaiak
state value (`none` models a Go `nil`) to a terraform value. A value
whose runtime shape does not match its declared tag falls through to the
string rendering (the `tflog.Warn` call there is log output only, not a
diagnostic). -/
def kaiakValueToTF : Option KValue → String → TFValue
  | none, t => kaiakNullValue t
  | some v, t =>
    if t = "bool" then
      match v with
      | .vbool b => .boolV b
      | _ => .stringV (render v)
    else if t = "int" ∨ t = "uint" then
      match v with
      | .vfloat q => .int64V (q.num / q.den)
      | .vint n => .int64V n
      | _ => .stringV (render v)
    else if t = "float" then
      match v with
      | .vfloat q => .float64V q
      | .vint n => .float64V (n : Rat)
      | _ => .stringV (render v)
    else if isListTag t then kaiakSliceToTF v t
    else if isMapTag t then kaiakMapToTF v t
    else if t = "time" then
      match v with
      | .vstring s =>
        match parseRFC3339 s with
        | some ts => .stringV (formatRFC3339 ts)
        | none => .stringV s
      | _ => .stringV (render v)
    else .stringV (render v)
termination_by ov _ => sizeOf ov

/-- Models `kaiakSliceToTF` (schema.go lines 234-249): a non-slice value
degrades to a typed list null, as does a slice whose converted elements
fail `types.ListValue`'s element-type validation. -/
def kaiakSliceToTF (v : KValue) (t : String) : TFValue :=
  let elemTy := kaiakTypeToAttrType (listElemTag t)
  match v with
  | .vlist items =>
    let elems := items.attach.map fun x => kaiakValueToTF (some x.1) (listElemTag t)
    if elems.all fun e => AttrType.beq (typeOfTF e) elemTy then .listV elemTy elems
    else .listNull elemTy
  | _ => .listNull elemTy
termination_by sizeOf v
decreasing_by
  have := List.sizeOf_lt_of_mem x.2
  simp_wf
  omega

/-- Models `kaiakMapToTF` (schema.go lines 252-275): a non-map value
degrades to a typed map null; a malformed map tag degrades to a
string-typed map null; element-type validation failures of
`types.MapValue` also degrade to the typed map null. -/
def kaiakMapToTF (v : KValue) (t : String) : TFValue :=
  let elemTy := kaiakMapElemType t
  match v with
  | .vmap items =>
    match mapValTag t with
    | none => .mapNull .stringT
    | some vt =>
      let elems := items.attach.map fun p => (p.1.1, kaiakValueToTF (some p.1.2) vt)
      if elems.all fun e => AttrType.beq (typeOfTF e.2) elemTy then .mapV elemTy elems
      else .mapNull elemTy
  | _ => .mapNull elemTy
termination_by sizeOf v
decreasing_by
  have := List.sizeOf_lt_of_mem p.2
  have h2 : sizeOf p.1.2 < sizeOf p.1 := by
    obtain ⟨a, b⟩ := p.1
    simp
    try omega
  simp_wf
  omega

end

/-- Models `schema.State`: a Go `map[string]any` from dotted kaiak
attribute name to dynamic value. An entry whose value is `none` models a
key that is present with an explicit Go `nil` (a JSON null). -/
def KState := List (String × Option KValue)

/-- Models `fmt.Sprintf` with the `v` verb on a terraform `attr.Value`
(its `String` rendering). A stand-in: no claim depends on its exact
text. -/
def renderTF : TFValue → String
  | .boolV b => if b then "true" else "false"
  | .boolNull => "<null>"
  | .boolUnknown => "<unknown>"
  | .int64V n => toString n
  | .int64Null => "<null>"
  | .int64Unknown => "<unknown>"
  | .float64V q => toString q.num ++ "/" ++ toString q.den
  | .float64Null => "<null>"
  | .float64Unknown => "<unknown>"
  | .stringV s => "\"" ++ s ++ "\""
  | .stringNull => "<null>"
  | .stringUnknown => "<unknown>"
  | .listV _ xs =>
    "[" ++ String.intercalate "," (xs.attach.map fun x => renderTF x.1) ++ "]"
  | .listNull _ => "<null>"
  | .listUnknown _ => "<unknown>"
  | .mapV _ m =>
    "\x7b" ++ String.intercalate ","
      (m.attach.map fun p => "\"" ++ p.1.1 ++ "\":" ++ renderTF p.1.2) ++ "\x7d"
  | .mapNull _ => "<null>"
  | .mapUnknown _ => "<unknown>"
  | .objV _ m =>
    "\x7b" ++ String.intercalate ","
      (m.attach.map fun p => "\"" ++ p.1.1 ++ "\":" ++ renderTF p.1.2) ++ "\x7d"
  | .objNull _ => "<null>"
  | .objUnknown _ => "<unknown>"
termination_by v => sizeOf v
decreasing_by
  · have := List.sizeOf_lt_of_mem x.2
    simp_wf
    omega
  all_goals
    · have := List.sizeOf_lt_of_mem p.2
      have h2 : sizeOf p.1.2 < sizeOf p.1 := by
        obtain ⟨a, b⟩ := p.1
        simp
        try omega
      simp_wf
      omega

/-- Models `tfElemToGo` (part_002 lines 478-497): converts a terraform
element value back to its Go equivalent for the kaiak API. The framework
accessors `ValueBool`/`ValueInt64`/`ValueFloat64`/`ValueString` return
the zero value on null or unknown input, which the source does not guard
against here. -/
def tfElemToGo (v : TFValue) (t : String) : KValue :=
  if t = "bool" then
    match v with
    | .boolV b => .vbool b
    | .boolNull => .vbool false
    | .boolUnknown => .vbool false
    | _ => tfElemToGoString v
  else if t = "int" ∨ t = "uint" then
    match v with
    | .int64V n => .vint n
    | .int64Null => .vint 0
    | .int64Unknown => .vint 0
    | _ => tfElemToGoString v
  else if t = "float" then
    match v with
    | .float64V q => .vfloat q
    | .float64Null => .vfloat 0
    | .float64Unknown => .vfloat 0
    | _ => tfElemToGoString v
  else tfElemToGoString v
where
  /-- The tail of `tfElemToGo`: the `types.String` assertion followed by
  the `fmt.Sprintf` fallback. -/
  tfElemToGoString (v : TFValue) : KValue :=
    match v with
    | .stringV s => .vstring s
    | .stringNull => .vstring ""
    | .stringUnknown => .vstring ""
    | _ => .vstring (renderTF v)

/-- Models `tfListToKaiak` (part_002 lines 457-464). -/
def tfListToKaiak (xs : List TFValue) (elemTag : String) : List KValue :=
  xs.map fun e => tfElemToGo e elemTag

/-- Models `tfMapToKaiak` (part_002 lines 467-474). -/
def tfMapToKaiak (m : List (String × TFValue)) (valTag : String) :
    List (String × KValue) :=
  m.map fun p => (p.1, tfElemToGo p.2 valTag)

/-- Models the `attrGetter` interface (part_002 lines 33-35): fetching a
terraform value at a top-level attribute path of a plan, config or
state. -/
def AttrGetter := String → TFValue

/-- The diagnostic the framework's `GetAttribute` produces when the
stored value cannot be converted to the receiver's type. -/
def conversionError (p : String) : Diagnostic :=
  { severity := .error, summary := "Value Conversion Error"
    detail := "unexpected value type at " ++ p }

/-- Models `extractSingleAttr` (part_002 lines 380-421): reads one
top-level terraform attribute and stores its Go value into the kaiak
state map when it is neither null nor unknown. A value whose framework
type does not match the receiver for the declared tag produces a
conversion-error diagnostic and stores nothing (the receiver keeps its
null zero value). -/
def extractSingleAttr (src : AttrGetter) (p : String) (info : AttrInfo)
    (state : KState) (diags : List Diagnostic) : KState × List Diagnostic :=
  let t := info.attr.type
  if t = "bool" then
    match src p with
    | .boolV b => (insertA state info.kaiakName (some (.vbool b)), diags)
    | .boolNull => (state, diags)
    | .boolUnknown => (state, diags)
    | _ => (state, diags ++ [conversionError p])
  else if t = "int" ∨ t = "uint" then
    match src p with
    | .int64V n => (insertA state info.kaiakName (some (.vint n)), diags)
    | .int64Null => (state, diags)
    | .int64Unknown => (state, diags)
    | _ => (state, diags ++ [conversionError p])
  else if t = "float" then
    match src p with
    | .float64V q => (insertA state info.kaiakName (some (.vfloat q)), diags)
    | .float64Null => (state, diags)
    | .float64Unknown => (state, diags)
    | _ => (state, diags ++ [conversionError p])
  else if isListTag t then
    match src p with
    | .listV _ xs =>
      (insertA state info.kaiakName
        (some (.vlist (tfListToKaiak xs (listElemTag t)))), diags)
    | .listNull _ => (state, diags)
    | .listUnknown _ => (state, diags)
    | _ => (state, diags ++ [conversionError p])
  else if isMapTag t then
    match src p with
    | .mapV _ xs =>
      match mapValTag t with
      | some vt =>
        (insertA state info.kaiakName (some (.vmap (tfMapToKaiak xs vt))), diags)
      | none => (state, diags)
    | .mapNull _ => (state, diags)
    | .mapUnknown _ => (state, diags)
    | _ => (state, diags ++ [conversionError p])
  else
    match src p with
    | .stringV s => (insertA state info.kaiakName (some (.vstring s)), diags)
    | .stringNull => (state, diags)
    | .stringUnknown => (state, diags)
    | _ => (state, diags ++ [conversionError p])

/-- Models `extractBlockAttr` (part_002 lines 425-454): reads one member
value of a block object into the kaiak state map when it is neither null
nor unknown; a member whose framework type does not match the declared
tag stores nothing. -/
def extractBlockAttr (info : AttrInfo) (v : TFValue) (state : KState) : KState :=
  let t := info.attr.type
  if t = "bool" then
    match v with
    | .boolV b => insertA state info.kaiakName (some (.vbool b))
    | _ => state
  else if t = "int" ∨ t = "uint" then
    match v with
    | .int64V n => insertA state info.kaiakName (some (.vint n))
    | _ => state
  else if t = "float" then
    match v with
    | .float64V q => insertA state info.kaiakName (some (.vfloat q))
    | _ => state
  else if isListTag t then
    match v with
    | .listV _ xs =>
      insertA state info.kaiakName (some (.vlist (tfListToKaiak xs (listElemTag t))))
    | _ => state
  else if isMapTag t then
    match v with
    | .mapV _ xs =>
      match mapValTag t with
      | some vt => insertA state info.kaiakName (some (.vmap (tfMapToKaiak xs vt)))
      | none => state
    | _ => state
  else
    match v with
    | .stringV s => insertA state info.kaiakName (some (.vstring s))
    | _ => state

/-- Appends an attrInfo to its block's group, modelling
`blockGroups[info.tfBlock] = append(blockGroups[info.tfBlock], info)`.
Groups are kept in first-insertion order. -/
def appendGroupInfo (groups : List (String × List AttrInfo))
    (blockName : String) (info : AttrInfo) : List (String × List AttrInfo) :=
  match lookupA groups blockName with
  | some is => insertA groups blockName (is ++ [info])
  | none => groups ++ [(blockName, [info])]

/-- One iteration of the top-level loop of `extractAttrs` (part_002
lines 259-264): read-only and block attributes are skipped. -/
def extractTopStep (src : AttrGetter) (acc : KState × List Diagnostic)
    (info : AttrInfo) : KState × List Diagnostic :=
  if info.attr.readOnly || info.tfBlock ≠ "" then acc
  else extractSingleAttr src info.tfField info acc.1 acc.2

/-- One iteration of the block-grouping loop of `extractAttrs` (part_002
lines 267-273): read-only and top-level attributes are skipped. -/
def extractGroupStep (acc : List (String × List AttrInfo)) (info : AttrInfo) :
    List (String × List AttrInfo) :=
  if info.attr.readOnly || info.tfBlock = "" then acc
  else appendGroupInfo acc info.tfBlock info

/-- One iteration of the inner member loop of `extractAttrs` (part_002
lines 282-288): a grouped member present in the fetched block object is
extracted. -/
def extractMemberStep (battrs : List (String × TFValue)) (st : KState)
    (info : AttrInfo) : KState :=
  match lookupA battrs info.tfField with
  | some v => extractBlockAttr info v st
  | none => st

/-- One iteration of the block loop of `extractAttrs` (part_002 lines
275-289): the parent object is fetched once; a null or unknown parent
skips the whole block, a non-object parent records a conversion error
and skips it. -/
def extractBlockStep (src : AttrGetter) (acc : KState × List Diagnostic)
    (bg : String × List AttrInfo) : KState × List Diagnostic :=
  match src bg.1 with
  | .objV _ battrs => (bg.2.foldl (extractMemberStep battrs) acc.1, acc.2)
  | .objNull _ => acc
  | .objUnknown _ => acc
  | _ => (acc.1, acc.2 ++ [conversionError bg.1])

/-- Models `extractAttrs` (part_002 lines 255-292): reads all
non-readonly kaiak attributes from a terraform plan or config. Top-level
attributes are read directly; block members are read by fetching the
parent object first. -/
def extractAttrs (infos : List AttrInfo) (src : AttrGetter) :
    KState × List Diagnostic :=
  let top := infos.foldl (extractTopStep src) ([], [])
  let groups := infos.foldl extractGroupStep []
  groups.foldl (extractBlockStep src) top

/-- One iteration of the fallback loop of `writeState` (part_002 lines
320-329): a non-read-only attribute missing from the merged map is
backfilled from the planned map when present there. -/
def mergeStep (planned merged : KState) (info : AttrInfo) : KState :=
  if info.attr.readOnly then merged
  else
    match lookupA merged info.kaiakName with
    | some _ => merged
    | none =>
      match lookupA planned info.kaiakName with
      | some pv => insertA merged info.kaiakName pv
      | none => merged

/-- The reconciliation merge of `writeState` (part_002 lines 314-330):
the merged map starts as a copy of the server state (so the server wins
for every key it reports) and the fallback loop then backfills writable
attributes from the just-submitted planned values; the loop runs only
when a planned map was supplied (`some`), modelling the
`plannedAttrs != nil` guard. -/
def writeStateMerge (infos : List AttrInfo) (kaiakState : KState)
    (plannedAttrs : Option KState) : KState :=
  match plannedAttrs with
  | none => kaiakState
  | some planned => infos.foldl (mergeStep planned) kaiakState

/-- The top-level attribute writes of `writeState` (part_002 lines
333-339): each top-level attribute is written as the coercion of its
merged value, a missing or explicitly nil merged entry becoming the
typed null. -/
def writeStateTop (infos : List AttrInfo) (merged : KState) :
    List (String × TFValue) :=
  infos.filterMap fun info =>
    if info.tfBlock = "" then
      some (info.tfField,
        kaiakValueToTF ((lookupA merged info.kaiakName).join) info.attr.type)
    else none

/-- Models `writeState` (part_002 lines 302-339): fetches the instance
(the fetch outcome is the `getResult` argument), writes `id` and the
reconciled top-level attributes; a failed fetch reports a fatal error
and writes nothing. The block-object emission of lines 341-372 is not
modelled; no claim depends on it. -/
def writeState (infos : List AttrInfo) (fullName : String)
    (getResult : Except String KState) (plannedAttrs : Option KState) :
    List Diagnostic × List (String × TFValue) :=
  match getResult with
  | .error e => (addError [] "Failed to read resource instance" e, [])
  | .ok kaiakState =>
    let merged := writeStateMerge infos kaiakState plannedAttrs
    ([], ("id", .stringV fullName) :: writeStateTop infos merged)

/-- The detail text of the malformed-import-ID error (part_002 line 234). -/
def invalidImportDetail (reqID : String) : String :=
  "Expected format resource_type.label (e.g. httpstatic.docs), got " ++ reqID

/-- The detail text of the import type-mismatch error (part_002 lines 240-241). -/
def importMismatchDetail (reqID ty boundName : String) : String :=
  "Import ID " ++ reqID ++ " has resource type " ++ ty ++
    ", but this resource block is kaiak_" ++ boundName ++
    ". Use the matching resource type or correct the import ID."

/-- Models `ImportState` (part_002 lines 229-247): parses the raw import
ID as `resource_type.label`, rejecting malformed IDs and IDs whose type
segment differs from the controller's bound resource type; on success it
seeds exactly the `id` and `name` attributes. -/
def importState (boundName reqID : String) :
    List Diagnostic × List (String × String) :=
  match breakDot reqID.toList with
  | none =>
    (addError [] "Invalid import ID" (invalidImportDetail reqID), [])
  | some (p0, p1) =>
    if p0.isEmpty ∨ p1.isEmpty then
      (addError [] "Invalid import ID" (invalidImportDetail reqID), [])
    else if String.mk p0 ≠ boundName then
      (addError [] "Resource type mismatch"
        (importMismatchDetail reqID (String.mk p0) boundName), [])
    else
      ([], [("id", reqID), ("name", String.mk p1)])

/-- One call made against the remote instance store. -/
inductive ClientCall where
  | createInstance (name : String)
  | updateInstance (name : String) (attrs : KState) (applyNow : Bool)
  | destroyInstance (name : String) (force : Bool)
  | getInstance (name : String)

/-- The behaviour of the remote store for one Create call: the error
outcome of each request kind (`none` means success) and the state
returned by the final read-back. -/
structure ClientBehavior where
  createErr : Option String
  updateErr : Option String
  destroyErr : Option String
  getResult : Except String KState

/-- The observable outcome of a CRUD operation: the diagnostics, the
remote calls made in order, and the terraform state writes performed. -/
structure OpOutcome where
  diags : List Diagnostic
  calls : List ClientCall
  writes : List (String × TFValue)

/-- The cleanup-failure warning text of `Create` (part_002 lines 135-138
and 150-153). -/
def cleanupDetail (fullName reason cleanupErr : String) : String :=
  "Instance " ++ fullName ++ " was created but " ++ reason ++
    ". Attempted to destroy the instance but cleanup also failed: " ++
    cleanupErr ++ ". The instance may need manual removal."

/-- Models `Create` (part_002 lines 114-162) for a configured client:
creates an empty instance, extracts planned attributes, applies them
when any were produced, and reads the state back using the submitted
values as the reconciliation fallback. When extraction or the apply
fails after the instance was created, a best-effort destroy runs; if
that destroy itself fails an additional warning diagnostic naming the
orphaned instance is added (the `requireClient` guard of lines 102-109
is outside this model because the client handle is an argument here). -/
def createOp (resourceName label : String) (infos : List AttrInfo)
    (client : ClientBehavior) (plan : AttrGetter) : OpOutcome :=
  let fullName := resourceName ++ "." ++ label
  match client.createErr with
  | some e =>
    { diags := addError [] "Failed to create resource instance" e
      calls := [.createInstance fullName], writes := [] }
  | none =>
    let ex := extractAttrs infos plan
    if hasError ex.2 then
      match client.destroyErr with
      | some de =>
        { diags := addWarning ex.2 "Cleanup failed"
            (cleanupDetail fullName "attribute extraction failed" de)
          calls := [.createInstance fullName, .destroyInstance fullName false]
          writes := [] }
      | none =>
        { diags := ex.2
          calls := [.createInstance fullName, .destroyInstance fullName false]
          writes := [] }
    else if ex.1.isEmpty then
      let ws := writeState infos fullName client.getResult (some ex.1)
      { diags := ex.2 ++ ws.1
        calls := [.createInstance fullName, .getInstance fullName]
        writes := ws.2 }
    else
      match client.updateErr with
      | some ue =>
        let d1 :=
          match client.destroyErr with
          | some de => addWarning ex.2 "Cleanup failed"
              (cleanupDetail fullName "applying attributes failed" de)
          | none => ex.2
        { diags := addError d1 "Failed to apply attributes" ue
          calls := [.createInstance fullName,
            .updateInstance fullName ex.1 true, .destroyInstance fullName false]
          writes := [] }
      | none =>
        let ws := writeState infos fullName client.getResult (some ex.1)
        { diags := ex.2 ++ ws.1
          calls := [.createInstance fullName,
            .updateInstance fullName ex.1 true, .getInstance fullName]
          writes := ws.2 }

/-- The claim-side well-formedness of an import ID: of the form
`type.label` with both segments non-empty, split at the first dot (as
`strings.SplitN(id, ".", 2)` splits it). -/
def splitID (reqID : String) : Option (String × String) :=
  match breakDot reqID.toList with
  | some (p0, p1) =>
    if p0.isEmpty ∨ p1.isEmpty then none
    else some (String.mk p0, String.mk p1)
  | none => none

section TagFacts

theorem isListTag_shape {t : String} (h : isListTag t = true) :
    ∃ rest, t.toList = '[' :: ']' :: rest := by
  unfold isListTag at h
  split at h
  · next rest heq => exact ⟨rest, heq⟩
  · simp at h

theorem isMapTag_shape {t : String} (h : isMapTag t = true) :
    ∃ rest, t.toList = 'm' :: 'a' :: 'p' :: '[' :: rest := by
  unfold isMapTag at h
  split at h
  · next rest heq => exact ⟨rest, heq⟩
  · simp at h

theorem toList_ne_of_ne {t u : String} (h : t.toList ≠ u.toList) : t ≠ u := by
  intro he
  exact h (he ▸ rfl)

theorem isListTag_facts {t : String} (h : isListTag t = true) :
    t ≠ "bool" ∧ t ≠ "int" ∧ t ≠ "uint" ∧ t ≠ "float" ∧ t ≠ "time" ∧
      isMapTag t = false := by
  obtain ⟨rest, heq⟩ := isListTag_shape h
  refine ⟨?_, ?_, ?_, ?_, ?_, ?_⟩
  · exact toList_ne_of_ne (by rw [heq]; simp)
  · exact toList_ne_of_ne (by rw [heq]; simp)
  · exact toList_ne_of_ne (by rw [heq]; simp)
  · exact toList_ne_of_ne (by rw [heq]; simp)
  · exact toList_ne_of_ne (by rw [heq]; simp)
  · unfold isMapTag
    rw [heq]
    rfl

theorem isMapTag_facts {t : String} (h : isMapTag t = true) :
    t ≠ "bool" ∧ t ≠ "int" ∧ t ≠ "uint" ∧ t ≠ "float" ∧ t ≠ "time" ∧
      isListTag t = false := by
  obtain ⟨rest, heq⟩ := isMapTag_shape h
  refine ⟨?_, ?_, ?_, ?_, ?_, ?_⟩
  · exact toList_ne_of_ne (by rw [heq]; simp)
  · exact toList_ne_of_ne (by rw [heq]; simp)
  · exact toList_ne_of_ne (by rw [heq]; simp)
  · exact toList_ne_of_ne (by rw [heq]; simp)
  · exact toList_ne_of_ne (by rw [heq]; simp)
  · unfold isListTag
    rw [heq]
    rfl

end TagFacts

/-- Claim C5: decoding a nil dynamic value returns the strongly-typed
null determined by the type tag — boolean-null for `bool`, integer-null
for `int` and `uint`, float-null for `float`, element-typed list and map
nulls for the compound tags, and string-null for every other tag — never
a generic untyped null. -/
theorem C5_nil_decodes_to_typed_null (t : String) :
    kaiakValueToTF none t = kaiakNullValue t ∧
    (t = "bool" → kaiakNullValue t = .boolNull) ∧
    (t = "int" ∨ t = "uint" → kaiakNullValue t = .int64Null) ∧
    (t = "float" → kaiakNullValue t = .float64Null) ∧
    (isListTag t = true →
      kaiakNullValue t = .listNull (kaiakTypeToAttrType (listElemTag t))) ∧
    (isMapTag t = true → kaiakNullValue t = .mapNull (kaiakMapElemType t)) ∧
    (t ≠ "bool" → t ≠ "int" → t ≠ "uint" → t ≠ "float" →
      isListTag t = false → isMapTag t = false →
      kaiakNullValue t = .stringNull) := by
  refine ⟨by simp [kaiakValueToTF], ?_, ?_, ?_, ?_, ?_, ?_⟩
  · intro h
    simp [kaiakNullValue, h]
  · intro h
    rcases h with h | h <;> simp +decide [kaiakNullValue, h]
  · intro h
    simp +decide [kaiakNullValue, h]
  · intro h
    obtain ⟨h1, h2, h3, h4, _, _⟩ := isListTag_facts h
    simp [kaiakNullValue, h, h1, h2, h3, h4]
  · intro h
    obtain ⟨h1, h2, h3, h4, _, h6⟩ := isMapTag_facts h
    simp [kaiakNullValue, h, h1, h2, h3, h4, h6]
  · intro h1 h2 h3 h4 h5 h6
    simp [kaiakNullValue, h1, h2, h3, h4, h5, h6]

/-- Witness for C5 at concrete tags: a nil input yields the boolean
null for `bool`, the integer null for `uint`, the element-typed list
null for `[]int`, and the string null for `duration`. -/
theorem C5_nil_decodes_to_typed_null_witness :
    kaiakValueToTF none "bool" = .boolNull ∧
    kaiakValueToTF none "uint" = .int64Null ∧
    kaiakValueToTF none "[]int" = .listNull .int64T ∧
    kaiakValueToTF none "duration" = .stringNull := by
  refine ⟨?_, ?_, ?_, ?_⟩
  · have h := C5_nil_decodes_to_typed_null "bool"
    rw [h.1, h.2.1 rfl]
  · have h := C5_nil_decodes_to_typed_null "uint"
    rw [h.1, h.2.2.1 (Or.inr rfl)]
  · have h := C5_nil_decodes_to_typed_null "[]int"
    rw [h.1, h.2.2.2.2.1 (by decide)]
    simp +decide [kaiakTypeToAttrType, kaiakTypeToAttrTypeL, listElemTag]
  · have h := C5_nil_decodes_to_typed_null "duration"
    rw [h.1, h.2.2.2.2.2.2 (by decide) (by decide) (by decide) (by decide)
      (by decide) (by decide)]

/-- Claim C6: for the `time` tag, decoding a string that parses in the
RFC 3339 interchange format yields the timestamp re-emitted in canonical
form, and decoding a string that does not parse yields the input string
unchanged. -/
theorem C6_time_decoding (s : String) :
    (∀ ts, parseRFC3339 s = some ts →
      kaiakValueToTF (some (.vstring s)) "time" = .stringV (formatRFC3339 ts)) ∧
    (parseRFC3339 s = none →
      kaiakValueToTF (some (.vstring s)) "time" = .stringV s) := by
  constructor
  · intro ts hp
    simp +decide [kaiakValueToTF, hp]
  · intro hp
    simp +decide [kaiakValueToTF, hp]

/-- Witness for C6: the fractional-second timestamp with a literal zero
offset is canonicalised (the fraction dropped, the zero offset printed
as `Z`), and an unparsable string passes through unchanged. -/
theorem C6_time_decoding_witness :
    kaiakValueToTF (some (.vstring "2021-03-04T05:06:07.25+00:00")) "time" =
      .stringV "2021-03-04T05:06:07Z" ∧
    kaiakValueToTF (some (.vstring "notatime")) "time" = .stringV "notatime" := by
  constructor
  · have h := (C6_time_decoding "2021-03-04T05:06:07.25+00:00").1
      ⟨2021, 3, 4, 5, 6, 7, 0⟩ (by decide)
    rw [h]
    rfl
  · exact (C6_time_decoding "notatime").2 (by decide)

/-- Claim C7: Import rejects a raw ID that is not `type.label` with both
segments non-empty with a format error and writes no state; rejects a
well-formed ID whose type segment differs from the bound resource type
with a type-mismatch error and writes no state; and on success seeds
exactly the `id` attribute (the full ID) and the `name` attribute (the
label segment). -/
theorem C7_import_state (boundName reqID : String) :
    (splitID reqID = none →
      importState boundName reqID =
        ([⟨.error, "Invalid import ID", invalidImportDetail reqID⟩], [])) ∧
    (∀ ty label, splitID reqID = some (ty, label) → ty ≠ boundName →
      importState boundName reqID =
        ([⟨.error, "Resource type mismatch",
            importMismatchDetail reqID ty boundName⟩], [])) ∧
    (∀ ty label, splitID reqID = some (ty, label) → ty = boundName →
      importState boundName reqID =
        ([], [("id", reqID), ("name", label)])) := by
  refine ⟨?_, ?_, ?_⟩
  · intro h
    cases hb : breakDot reqID.toList with
    | none =>
      have hbd : breakDot reqID.data = none := hb
      simp [importState, hbd, addError]
    | some pr =>
      obtain ⟨p0, p1⟩ := pr
      have hbd : breakDot reqID.data = some (p0, p1) := hb
      simp only [splitID, hb] at h
      split at h
      · next hempt =>
        simp only [List.isEmpty_iff] at hempt
        rcases hempt with he1 | he1 <;>
          simp [importState, hbd, he1, addError]
      · exact absurd h (by simp)
  · intro ty label h hne
    cases hb : breakDot reqID.toList with
    | none =>
      have hbd : breakDot reqID.data = none := hb
      simp [splitID, hbd] at h
    | some pr =>
      obtain ⟨p0, p1⟩ := pr
      have hbd : breakDot reqID.data = some (p0, p1) := hb
      simp only [splitID, hb] at h
      split at h
      · simp at h
      · next hempt =>
        simp only [List.isEmpty_iff, not_or] at hempt
        simp only [Option.some.injEq, Prod.mk.injEq] at h
        obtain ⟨hty, hlab⟩ := h
        subst hty
        subst hlab
        simp [importState, hbd, hempt.1, hempt.2, hne, addError]
  · intro ty label h he
    cases hb : breakDot reqID.toList with
    | none =>
      have hbd : breakDot reqID.data = none := hb
      simp [splitID, hbd] at h
    | some pr =>
      obtain ⟨p0, p1⟩ := pr
      have hbd : breakDot reqID.data = some (p0, p1) := hb
      simp only [splitID, hb] at h
      split at h
      · simp at h
      · next hempt =>
        simp only [List.isEmpty_iff, not_or] at hempt
        simp only [Option.some.injEq, Prod.mk.injEq] at h
        obtain ⟨hty, hlab⟩ := h
        subst hlab
        rw [he] at hty
        simp [importState, hbd, hempt.1, hempt.2, hty]

/-- Witness for C7 with a controller bound to `httpserver`: `badid` (no
dot) fails with the format error and writes nothing,
`httpstatic.docs` fails with the type mismatch and writes nothing, and
`httpserver.docs` seeds exactly `id` and `name`. -/
theorem C7_import_state_witness :
    importState "httpserver" "badid" =
      ([⟨.error, "Invalid import ID", invalidImportDetail "badid"⟩], []) ∧
    importState "httpserver" "httpstatic.docs" =
      ([⟨.error, "Resource type mismatch",
          importMismatchDetail "httpstatic.docs" "httpstatic" "httpserver"⟩], []) ∧
    importState "httpserver" "httpserver.docs" =
      ([], [("id", "httpserver.docs"), ("name", "docs")]) := by
  refine ⟨?_, ?_, ?_⟩
  · exact (C7_import_state "httpserver" "badid").1 (by decide)
  · exact (C7_import_state "httpserver" "httpstatic.docs").2.1
      "httpstatic" "docs" (by decide) (by decide)
  · exact (C7_import_state "httpserver" "httpserver.docs").2.2
      "httpserver" "docs" (by decide) rfl

section AssocLemmas

theorem lookupA_insertA_self {α : Type} (l : List (String × α)) (k : String) (v : α) :
    lookupA (insertA l k v) k = some v := by
  induction l with
  | nil => simp [insertA, lookupA]
  | cons p rest ih =>
    obtain ⟨k', w⟩ := p
    by_cases hk : k' = k
    · simp [insertA, hk, lookupA]
    · simp [insertA, hk, lookupA, ih]

theorem lookupA_insertA_ne {α : Type} (l : List (String × α)) (k k' : String)
    (v : α) (h : k' ≠ k) : lookupA (insertA l k v) k' = lookupA l k' := by
  have hkk : ¬k = k' := fun he => h he.symm
  induction l with
  | nil => simp [insertA, lookupA, hkk]
  | cons p rest ih =>
    obtain ⟨k0, w⟩ := p
    by_cases hk : k0 = k
    · subst hk
      simp [insertA, lookupA, hkk]
    · simp [insertA, hk, lookupA, ih]

end AssocLemmas

section MergeLemmas

/-- The fallback loop never removes or overwrites an entry that is
already present in the merged map. -/
theorem mergeFold_preserves (planned : KState) (infos : List AttrInfo)
    (acc : KState) (k : String) (v : Option KValue)
    (h : lookupA acc k = some v) :
    lookupA (infos.foldl (mergeStep planned) acc) k = some v := by
  induction infos generalizing acc with
  | nil => simpa using h
  | cons i is ih =>
    simp only [List.foldl_cons]
    apply ih
    unfold mergeStep
    split
    · exact h
    · split
      · exact h
      · next hnone =>
        split
        · by_cases hk : k = i.kaiakName
          · rw [← hk] at hnone
            rw [h] at hnone
            cases hnone
          · rw [lookupA_insertA_ne _ _ _ _ hk]
            exact h
        · exact h

/-- Once the merged map holds either nothing for a key or exactly the
planned value, running the fallback loop over attributes that include a
writable one named by the key makes the merged map hold the planned
value. -/
theorem mergeFold_backfills (planned : KState) (infos : List AttrInfo)
    (acc : KState) (k : String) (pv : Option KValue)
    (hp : lookupA planned k = some pv)
    (hinv : lookupA acc k = none ∨ lookupA acc k = some pv)
    (hw : ∃ i ∈ infos, i.kaiakName = k ∧ i.attr.readOnly = false) :
    lookupA (infos.foldl (mergeStep planned) acc) k = some pv := by
  induction infos generalizing acc with
  | nil => simp at hw
  | cons i is ih =>
    simp only [List.foldl_cons]
    have hstep : lookupA (mergeStep planned acc i) k = none ∨
        lookupA (mergeStep planned acc i) k = some pv := by
      unfold mergeStep
      split
      · exact hinv
      · split
        · exact hinv
        · next hnone =>
          split
          · next pv' hpv' =>
            by_cases hk : k = i.kaiakName
            · right
              rw [← hk] at hpv'
              rw [hp] at hpv'
              cases hpv'
              rw [← hk]
              exact lookupA_insertA_self _ _ _
            · rw [lookupA_insertA_ne _ _ _ _ hk]
              exact hinv
          · exact hinv
    rcases hw with ⟨j, hj, hjk, hjro⟩
    rcases List.mem_cons.mp hj with rfl | hj'
    · -- the witness attribute is the head: after its step the value is set
      have hset : lookupA (mergeStep planned acc j) k = some pv := by
        unfold mergeStep
        split
        · next hrox => exact absurd hrox (by simp [hjro])
        · split
          · next w hw' =>
            rw [hjk] at hw'
            rcases hinv with hnone | hsome
            · rw [hw'] at hnone
              cases hnone
            · exact hsome
          · next hnone' =>
            split
            · next pv' hpv' =>
              rw [hjk] at hpv'
              rw [hp] at hpv'
              cases hpv'
              rw [hjk]
              exact lookupA_insertA_self _ _ _
            · next hpn =>
              rw [hjk] at hpn
              rw [hpn] at hp
              cases hp
      exact mergeFold_preserves planned is _ k pv hset
    · exact ih _ hstep ⟨j, hj', hjk, hjro⟩

/-- The fallback loop never creates an entry for a key all of whose
attributes are read-only. -/
theorem mergeFold_skips_readonly (planned : KState) (infos : List AttrInfo)
    (acc : KState) (k : String)
    (hro : ∀ i ∈ infos, i.kaiakName = k → i.attr.readOnly = true)
    (h : lookupA acc k = none) :
    lookupA (infos.foldl (mergeStep planned) acc) k = none := by
  induction infos generalizing acc with
  | nil => simpa using h
  | cons i is ih =>
    simp only [List.foldl_cons]
    have hstep : lookupA (mergeStep planned acc i) k = none := by
      unfold mergeStep
      split
      · exact h
      · next hnro =>
        split
        · exact h
        · split
          · by_cases hk : k = i.kaiakName
            · exact absurd (hro i (List.mem_cons_self _ _) hk.symm) hnro
            · rw [lookupA_insertA_ne _ _ _ _ hk]
              exact h
          · exact h
    exact ih _ (fun j hj hjk => hro j (List.mem_cons_of_mem _ hj) hjk) hstep

end MergeLemmas

/-- Evaluating `kaiakValueToTF` on a Go nil yields the typed null of the
declared tag (schema.go lines 185-187). -/
theorem kaiakValueToTF_nil (t : String) :
    kaiakValueToTF none t = kaiakNullValue t := by
  simp [kaiakValueToTF]

/-- Claim C1: after a Create/Update read-back, every key reported by the
server keeps the server's value; a non-read-only attribute absent from
the server state is backfilled from the fallback map when present there;
attributes all of whose descriptors are read-only are never backfilled,
and a top-level attribute with no merged value is written as its typed
null. -/
theorem C1_reconciliation (infos : List AttrInfo) (S F : KState) (k : String) :
    (∀ v, lookupA S k = some v →
      lookupA (writeStateMerge infos S (some F)) k = some v) ∧
    (∀ pv, (∃ i ∈ infos, i.kaiakName = k ∧ i.attr.readOnly = false) →
      lookupA S k = none → lookupA F k = some pv →
      lookupA (writeStateMerge infos S (some F)) k = some pv) ∧
    ((∀ i ∈ infos, i.kaiakName = k → i.attr.readOnly = true) →
      lookupA S k = none →
      lookupA (writeStateMerge infos S (some F)) k = none) ∧
    (∀ i ∈ infos, i.tfBlock = "" →
      (lookupA (writeStateMerge infos S (some F)) i.kaiakName).join = none →
      (i.tfField, kaiakNullValue i.attr.type) ∈
        writeStateTop infos (writeStateMerge infos S (some F))) := by
  refine ⟨?_, ?_, ?_, ?_⟩
  · intro v h
    exact mergeFold_preserves F infos S k v h
  · intro pv hw hS hF
    exact mergeFold_backfills F infos S k pv hF (Or.inl hS) hw
  · intro hro hS
    exact mergeFold_skips_readonly F infos S k hro hS
  · intro i hi hblk hjoin
    unfold writeStateTop
    apply List.mem_filterMap.mpr
    refine ⟨i, hi, ?_⟩
    rw [if_pos hblk]
    rw [Option.join_eq_none] at hjoin
    rcases hjoin with hn | hsn
    · rw [hn]
      simp [kaiakValueToTF_nil]
    · rw [hsn]
      simp [kaiakValueToTF_nil]

/-- Witness for C1 at the spec's concrete example: with server state
`a = 1` and fallback `a = 9, b = 2` where `b` is writable and absent
server-side, the merge keeps the server's `a = 1` and backfills
`b = 2`; with `b` declared read-only, `b` stays absent and its
top-level write is the typed integer null. -/
theorem C1_reconciliation_witness :
    lookupA (writeStateMerge
      [newAttrInfo { name := "a", type := "int" },
       newAttrInfo { name := "b", type := "int" }]
      [("a", some (.vint 1))]
      (some [("a", some (.vint 9)), ("b", some (.vint 2))])) "a" =
      some (some (.vint 1)) ∧
    lookupA (writeStateMerge
      [newAttrInfo { name := "a", type := "int" },
       newAttrInfo { name := "b", type := "int" }]
      [("a", some (.vint 1))]
      (some [("a", some (.vint 9)), ("b", some (.vint 2))])) "b" =
      some (some (.vint 2)) ∧
    lookupA (writeStateMerge
      [newAttrInfo { name := "a", type := "int" },
       newAttrInfo { name := "b", type := "int", readOnly := true }]
      [("a", some (.vint 1))]
      (some [("a", some (.vint 9)), ("b", some (.vint 2))])) "b" = none ∧
    ("b", TFValue.int64Null) ∈
      writeStateTop
        [newAttrInfo { name := "a", type := "int" },
         newAttrInfo { name := "b", type := "int", readOnly := true }]
        (writeStateMerge
          [newAttrInfo { name := "a", type := "int" },
           newAttrInfo { name := "b", type := "int", readOnly := true }]
          [("a", some (.vint 1))]
          (some [("a", some (.vint 9)), ("b", some (.vint 2))])) := by
  refine ⟨?_, ?_, ?_, ?_⟩
  · exact (C1_reconciliation _ _ _ "a").1 (some (.vint 1)) rfl
  · exact (C1_reconciliation _ _ _ "b").2.1 (some (.vint 2))
      ⟨newAttrInfo { name := "b", type := "int" },
        List.Mem.tail _ (List.Mem.head _), rfl, rfl⟩ rfl rfl
  · exact (C1_reconciliation _ _ _ "b").2.2.1 (by decide) rfl
  · have h := (C1_reconciliation
      [newAttrInfo { name := "a", type := "int" },
       newAttrInfo { name := "b", type := "int", readOnly := true }]
      [("a", some (.vint 1))]
      [("a", some (.vint 9)), ("b", some (.vint 2))] "b").2.2.2
      (newAttrInfo { name := "b", type := "int", readOnly := true })
      (List.Mem.tail _ (List.Mem.head _)) rfl rfl
    simpa [kaiakNullValue] using h

/-- The claim-side runtime-shape predicate: whether a dynamic value's
runtime representation matches a type tag (booleans for `bool`, numeric
kinds for `int`/`uint`/`float`, slices for `[]` tags, maps for `map[`
tags, strings for `time`; the remaining tags are defined to accept any
shape via the string rendering). -/
def shapeMatches (v : KValue) (t : String) : Bool :=
  if t = "bool" then
    match v with
    | .vbool _ => true
    | _ => false
  else if t = "int" ∨ t = "uint" then
    match v with
    | .vfloat _ => true
    | .vint _ => true
    | _ => false
  else if t = "float" then
    match v with
    | .vfloat _ => true
    | .vint _ => true
    | _ => false
  else if isListTag t then
    match v with
    | .vlist _ => true
    | _ => false
  else if isMapTag t then
    match v with
    | .vmap _ => true
    | _ => false
  else if t = "time" then
    match v with
    | .vstring _ => true
    | _ => false
  else true

/-- Counterexample to claim C4 as stated: decoding the non-list value
`true` under the list tag `[]string` yields the typed list null, not the
string rendering of the input (schema.go lines 236-238). -/
theorem C4_counterexample :
    kaiakValueToTF (some (.vbool true)) "[]string" = .listNull .stringT ∧
    TFValue.listNull .stringT ≠ .stringV (render (.vbool true)) := by
  constructor
  · simp +decide [kaiakValueToTF, kaiakSliceToTF, listElemTag,
      kaiakTypeToAttrType, kaiakTypeToAttrTypeL]
  · intro h
    exact TFValue.noConfusion h

/-- Claim C4 as amended: decoding never fails; for every non-compound
tag a non-nil value whose runtime shape does not match the tag yields
the string rendering of the input, while for a `[]` tag a non-slice
value and for a `map[` tag a non-map value degrade to the typed null of
the compound type. -/
theorem C4_mismatch_decoding (t : String) (v : KValue) :
    (isListTag t = false → isMapTag t = false → shapeMatches v t = false →
      kaiakValueToTF (some v) t = .stringV (render v)) ∧
    (isListTag t = true → (∀ xs, v ≠ .vlist xs) →
      kaiakValueToTF (some v) t =
        .listNull (kaiakTypeToAttrType (listElemTag t))) ∧
    (isMapTag t = true → (∀ m, v ≠ .vmap m) →
      kaiakValueToTF (some v) t = .mapNull (kaiakMapElemType t)) := by
  refine ⟨?_, ?_, ?_⟩
  · intro hl hm hsm
    by_cases hb : t = "bool"
    · subst hb
      cases v <;> simp_all +decide [kaiakValueToTF, shapeMatches]
    · by_cases hiu : t = "int" ∨ t = "uint"
      · rcases hiu with h | h <;> subst h <;>
          cases v <;> simp_all +decide [kaiakValueToTF, shapeMatches]
      · by_cases hf : t = "float"
        · subst hf
          cases v <;> simp_all +decide [kaiakValueToTF, shapeMatches]
        · by_cases ht : t = "time"
          · subst ht
            cases v <;> simp_all +decide [kaiakValueToTF, shapeMatches]
          · unfold kaiakValueToTF
            simp [hb, hiu, hf, ht, hl, hm]
  · intro hlt hnl
    obtain ⟨h1, h2, h3, h4, h5, h6⟩ := isListTag_facts hlt
    have hred : kaiakValueToTF (some v) t = kaiakSliceToTF v t := by
      unfold kaiakValueToTF
      simp [h1, h2, h3, h4, hlt]
    rw [hred]
    cases v with
    | vlist xs => exact absurd rfl (hnl xs)
    | vbool b => simp [kaiakSliceToTF]
    | vint n => simp [kaiakSliceToTF]
    | vfloat q => simp [kaiakSliceToTF]
    | vstring s => simp [kaiakSliceToTF]
    | vmap m => simp [kaiakSliceToTF]
  · intro hmt hnm
    obtain ⟨h1, h2, h3, h4, h5, h6⟩ := isMapTag_facts hmt
    have hred : kaiakValueToTF (some v) t = kaiakMapToTF v t := by
      unfold kaiakValueToTF
      simp [h1, h2, h3, h4, h6, hmt]
    rw [hred]
    cases v with
    | vmap m => exact absurd rfl (hnm m)
    | vbool b => simp [kaiakMapToTF]
    | vint n => simp [kaiakMapToTF]
    | vfloat q => simp [kaiakMapToTF]
    | vstring s => simp [kaiakMapToTF]
    | vlist xs => simp [kaiakMapToTF]

/-- Witness for the amended C4: a string under the `int` tag coerces to
its string rendering, and a boolean under a map tag degrades to the
typed map null. -/
theorem C4_mismatch_decoding_witness :
    kaiakValueToTF (some (.vstring "x")) "int" = .stringV "x" ∧
    kaiakValueToTF (some (.vbool true)) "map[string]int" = .mapNull .int64T := by
  constructor
  · have h := (C4_mismatch_decoding "int" (.vstring "x")).1
      (by decide) (by decide) (by decide)
    rw [h]
    simp [render]
  · have h := (C4_mismatch_decoding "map[string]int" (.vbool true)).2.2
      (by decide) (fun m hm => KValue.noConfusion hm)
    rw [h]
    simp +decide [kaiakMapElemType, kaiakMapElemTypeL, breakRBracket,
      kaiakTypeToAttrTypeL]

/-- The "block/field" collision key a descriptor maps to (schema.go
line 59). -/
def derivedKey (a : KAttribute) : String :=
  (newAttrInfo a).tfBlock ++ "/" ++ (newAttrInfo a).tfField

/-- Whether a descriptor is a block-less one whose field name collides
with the reserved top-level `name`/`id` attributes (schema.go lines
47-53). -/
def reservedTop (a : KAttribute) : Bool :=
  (newAttrInfo a).tfBlock = "" &&
    ((newAttrInfo a).tfField = "name" || (newAttrInfo a).tfField = "id")

section BuildLoopLemmas

theorem hasError_append_left {d d' : List Diagnostic}
    (h : hasError d = true) : hasError (d ++ d') = true := by
  unfold hasError at *
  rw [List.any_append, h]
  rfl

theorem hasError_addError (d : List Diagnostic) (s e : String) :
    hasError (addError d s e) = true := by
  unfold hasError addError
  rw [List.any_append]
  simp

/-- Errors already accumulated are never dropped by the detection loop. -/
theorem buildLoop_error_monotone (r : String) (attrs : List KAttribute)
    (seen : List (String × String)) (infos : List AttrInfo)
    (diags : List Diagnostic) (h : hasError diags = true) :
    hasError (buildLoop r attrs seen infos diags).2.2 = true := by
  induction attrs generalizing seen infos diags with
  | nil => simpa [buildLoop] using h
  | cons a rest ih =>
    unfold buildLoop
    dsimp only
    split
    · exact ih _ _ _ (hasError_append_left h)
    · split
      · exact ih _ _ _ (hasError_append_left h)
      · exact ih _ _ _ h

/-- When the detection loop reports no error, the incoming diagnostics
were clean, no descriptor was reserved, every descriptor's key was new
with respect to the incoming `seen` map, and the descriptors' keys are
pairwise distinct. -/
theorem buildLoop_no_error_invariants (r : String) (attrs : List KAttribute)
    (seen : List (String × String)) (infos : List AttrInfo)
    (diags : List Diagnostic)
    (h : hasError (buildLoop r attrs seen infos diags).2.2 = false) :
    hasError diags = false ∧
    (∀ a ∈ attrs, reservedTop a = false) ∧
    (∀ a ∈ attrs, lookupA seen (derivedKey a) = none) ∧
    List.Pairwise (fun a b => derivedKey a ≠ derivedKey b) attrs := by
  induction attrs generalizing seen infos diags with
  | nil =>
    refine ⟨by simpa [buildLoop] using h, by simp, by simp, by simp⟩
  | cons a rest ih =>
    unfold buildLoop at h
    dsimp only at h
    split at h
    · next hres =>
      rw [buildLoop_error_monotone r rest seen infos _
        (hasError_addError diags _ _)] at h
      simp at h
    · next hres =>
      split at h
      · rw [buildLoop_error_monotone r rest seen infos _
          (hasError_addError diags _ _)] at h
        simp at h
      · next hnone =>
        obtain ⟨ih1, ih2, ih3, ih4⟩ := ih _ _ _ h
        have hresF : reservedTop a = false := by
          unfold reservedTop
          rcases Decidable.not_and_iff_or_not.mp hres with hb | hf
          · simp [hb]
          · have : ¬((newAttrInfo a).tfField = "name" ∨
                (newAttrInfo a).tfField = "id") := hf
            simp [not_or.mp this]
        have hkey : ∀ b ∈ rest, derivedKey a ≠ derivedKey b := by
          intro b hb hkeq
          have hlk := ih3 b hb
          rw [← hkeq] at hlk
          unfold derivedKey at hlk
          rw [lookupA_insertA_self] at hlk
          cases hlk
        refine ⟨ih1, ?_, ?_, ?_⟩
        · intro a' ha'
          rcases List.mem_cons.mp ha' with rfl | ha'
          · exact hresF
          · exact ih2 a' ha'
        · intro a' ha'
          rcases List.mem_cons.mp ha' with rfl | ha'
          · exact hnone
          · have h3 := ih3 a' ha'
            by_cases hk : derivedKey a' = derivedKey a
            · rw [hk] at h3
              unfold derivedKey at h3
              rw [lookupA_insertA_self] at h3
              cases h3
            · rw [lookupA_insertA_ne seen
                ((newAttrInfo a).tfBlock ++ "/" ++ (newAttrInfo a).tfField)
                (derivedKey a') a.name hk] at h3
              exact h3
        · exact List.pairwise_cons.mpr ⟨hkey, ih4⟩

end BuildLoopLemmas

/-- Claim C2: schema translation fails wholesale on a naming conflict.
If two descriptors map to the same (block, field) key, or any top-level
descriptor uses a reserved name (`name`/`id`), then the result carries
an error diagnostic, the returned schema is empty, and the attrInfo
table is nil — no partial schema is ever returned. -/
theorem C2_translation_fails_on_conflict (r : String)
    (attrs : List KAttribute)
    (h : (∃ i j : Fin attrs.length, i < j ∧
            derivedKey (attrs.get i) = derivedKey (attrs.get j)) ∨
         (∃ a ∈ attrs, reservedTop a = true)) :
    hasError (buildResourceSchema r attrs).2.2 = true ∧
    (buildResourceSchema r attrs).1 = { description := "", attributes := [] } ∧
    (buildResourceSchema r attrs).2.1 = none := by
  have he : hasError (buildLoop r attrs [] [] []).2.2 = true := by
    by_cases hcase : hasError (buildLoop r attrs [] [] []).2.2 = true
    · exact hcase
    · exfalso
      obtain ⟨_, hres, _, hpw⟩ := buildLoop_no_error_invariants r attrs [] [] []
        (by simpa using hcase)
      rcases h with ⟨i, j, hij, hkeq⟩ | ⟨a, ha, hra⟩
      · exact absurd hkeq ((List.pairwise_iff_get.mp hpw) i j hij)
      · rw [hres a ha] at hra
        cases hra
  refine ⟨?_, ?_, ?_⟩ <;> simp [buildResourceSchema, he]

/-- Witness for C2: the colliding pair `tls.cert_key` / `tls.cert.key`
fails translation with an error diagnostic, an empty schema, and a nil
attrInfo table; so does a single top-level descriptor named `name`. -/
theorem C2_translation_fails_on_conflict_witness :
    (hasError (buildResourceSchema "httpserver"
        [{ name := "tls.cert_key", type := "string" },
         { name := "tls.cert.key", type := "string" }]).2.2 = true ∧
      (buildResourceSchema "httpserver"
        [{ name := "tls.cert_key", type := "string" },
         { name := "tls.cert.key", type := "string" }]).1 =
        { description := "", attributes := [] } ∧
      (buildResourceSchema "httpserver"
        [{ name := "tls.cert_key", type := "string" },
         { name := "tls.cert.key", type := "string" }]).2.1 = none) ∧
    (hasError (buildResourceSchema "httpserver"
        [{ name := "name", type := "string" }]).2.2 = true ∧
      (buildResourceSchema "httpserver"
        [{ name := "name", type := "string" }]).1 =
        { description := "", attributes := [] } ∧
      (buildResourceSchema "httpserver"
        [{ name := "name", type := "string" }]).2.1 = none) := by
  constructor
  · exact C2_translation_fails_on_conflict "httpserver" _
      (Or.inl ⟨⟨0, by decide⟩, ⟨1, by decide⟩, by decide, rfl⟩)
  · exact C2_translation_fails_on_conflict "httpserver" _
      (Or.inr ⟨{ name := "name", type := "string" }, List.Mem.head _, rfl⟩)

/-- `newAttrInfo` stores the original descriptor unchanged. -/
theorem newAttrInfo_attr (a : KAttribute) : (newAttrInfo a).attr = a := by
  unfold newAttrInfo
  split
  · rfl
  · rfl

/-- The six leaf attribute kinds produced by `kaiakAttrToTF` all copy
the descriptor's required flag. -/
theorem leafRequired_kaiakAttrToTF (a : KAttribute) :
    leafRequired (kaiakAttrToTF a) = a.required := by
  unfold kaiakAttrToTF
  split
  · rfl
  · split
    · rfl
    · split
      · rfl
      · split
        · rfl
        · split
          · rfl
          · rfl

/-- Claim C9 (implicit): the reserved-name check applies only to
block-less descriptors, so a single descriptor whose dotted name has
block prefix `name` or `id` passes translation without any diagnostic,
and the derived block is written into the top-level attribute map under
that reserved key, replacing the prepended reserved leaf attribute. -/
theorem C9_reserved_block_shadowing (r : String) (a : KAttribute)
    (hb : (newAttrInfo a).tfBlock = "name" ∨ (newAttrInfo a).tfBlock = "id") :
    (buildResourceSchema r [a]).2.2 = [] ∧
    (buildResourceSchema r [a]).2.1 = some [newAttrInfo a] ∧
    lookupA (buildResourceSchema r [a]).1.attributes (newAttrInfo a).tfBlock =
      some (.nested [((newAttrInfo a).tfField, kaiakAttrToTF a)]
        a.required (!a.required) (!a.required)) := by
  have hne : (newAttrInfo a).tfBlock ≠ "" := by
    rcases hb with hb | hb <;> rw [hb] <;> decide
  have hloop : buildLoop r [a] [] [] [] =
      (insertA [] ((newAttrInfo a).tfBlock ++ "/" ++ (newAttrInfo a).tfField)
        a.name, [newAttrInfo a], []) := by
    unfold buildLoop
    dsimp only
    rw [if_neg (fun hc => hne hc.1)]
    unfold buildLoop
    simp [lookupA]
  refine ⟨?_, ?_, ?_⟩ <;>
    rcases hb with hb | hb <;>
      simp [buildResourceSchema, hloop, hasError, topStep, groupStep,
        blockStep, blockAnyRequired, insertGroup, lookupA, insertA, hb, hne,
        leafRequired_kaiakAttrToTF, nameAttribute, idAttribute,
        newAttrInfo_attr]

/-- Witness for C9: the descriptor `name.x` is accepted without
diagnostics, its attrInfo row is produced, and the resulting schema's
`name` entry is the derived single-member block, not the reserved
required string leaf. -/
theorem C9_reserved_block_shadowing_witness :
    (buildResourceSchema "httpserver" [{ name := "name.x", type := "string" }]).2.2 = [] ∧
    (buildResourceSchema "httpserver" [{ name := "name.x", type := "string" }]).2.1 =
      some [newAttrInfo { name := "name.x", type := "string" }] ∧
    lookupA (buildResourceSchema "httpserver"
        [{ name := "name.x", type := "string" }]).1.attributes "name" =
      some (.nested [("x", kaiakAttrToTF { name := "name.x", type := "string" })]
        false true true) :=
  C9_reserved_block_shadowing "httpserver" { name := "name.x", type := "string" }
    (Or.inl rfl)

section GroupLemmas

theorem insertA_of_lookup_none {α : Type} {l : List (String × α)} {k : String}
    (v : α) (h : lookupA l k = none) : insertA l k v = l ++ [(k, v)] := by
  induction l with
  | nil => rfl
  | cons p rest ih =>
    obtain ⟨k0, w⟩ := p
    unfold lookupA at h
    by_cases hk : k0 = k
    · rw [if_pos hk] at h
      cases h
    · rw [if_neg hk] at h
      simp [insertA, hk, ih h]

theorem lookupA_append_some {α : Type} {l1 : List (String × α)}
    (l2 : List (String × α)) {k : String} {v : α}
    (h : lookupA l1 k = some v) : lookupA (l1 ++ l2) k = some v := by
  induction l1 with
  | nil => cases h
  | cons p rest ih =>
    obtain ⟨k0, w⟩ := p
    simp only [List.cons_append, lookupA] at h ⊢
    by_cases hk : k0 = k
    · rwa [if_pos hk] at h ⊢
    · rw [if_neg hk] at h ⊢
      exact ih h

theorem lookupA_append_none {α : Type} {l1 : List (String × α)}
    (l2 : List (String × α)) {k : String}
    (h : lookupA l1 k = none) : lookupA (l1 ++ l2) k = lookupA l2 k := by
  induction l1 with
  | nil => rfl
  | cons p rest ih =>
    obtain ⟨k0, w⟩ := p
    simp only [List.cons_append, lookupA] at h ⊢
    by_cases hk : k0 = k
    · rw [if_pos hk] at h
      cases h
    · rw [if_neg hk] at h ⊢
      exact ih h

theorem mem_insertA {α : Type} {p : String × α} {l : List (String × α)}
    {k : String} {v : α} (h : p ∈ insertA l k v) : p ∈ l ∨ p = (k, v) := by
  induction l with
  | nil =>
    simp only [insertA] at h
    exact Or.inr (List.mem_singleton.mp h)
  | cons q rest ih =>
    obtain ⟨k0, w⟩ := q
    unfold insertA at h
    by_cases hk : k0 = k
    · rw [if_pos hk] at h
      rcases List.mem_cons.mp h with rfl | hmem
      · exact Or.inr (by rw [hk])
      · exact Or.inl (List.mem_cons_of_mem _ hmem)
    · rw [if_neg hk] at h
      rcases List.mem_cons.mp h with rfl | hmem
      · exact Or.inl (List.mem_cons_self _ _)
      · rcases ih hmem with h1 | h2
        · exact Or.inl (List.mem_cons_of_mem _ h1)
        · exact Or.inr h2

theorem lookupA_none_forall {α : Type} {l : List (String × α)} {k : String}
    (h : lookupA l k = none) : ∀ p ∈ l, p.1 ≠ k := by
  induction l with
  | nil => simp
  | cons q rest ih =>
    obtain ⟨k0, w⟩ := q
    unfold lookupA at h
    by_cases hk : k0 = k
    · rw [if_pos hk] at h
      cases h
    · rw [if_neg hk] at h
      intro p hp
      rcases List.mem_cons.mp hp with rfl | hmem
      · exact hk
      · exact ih h p hmem

theorem nodupKeys_insertA {α : Type} {l : List (String × α)}
    (k : String) (v : α) (h : NoDupKeys l) : NoDupKeys (insertA l k v) := by
  induction l with
  | nil => simp [insertA, NoDupKeys]
  | cons q rest ih =>
    obtain ⟨k0, w⟩ := q
    unfold NoDupKeys at h
    rw [List.pairwise_cons] at h
    obtain ⟨h1, h2⟩ := h
    unfold insertA
    by_cases hk : k0 = k
    · rw [if_pos hk]
      unfold NoDupKeys
      rw [List.pairwise_cons]
      exact ⟨h1, h2⟩
    · rw [if_neg hk]
      unfold NoDupKeys
      rw [List.pairwise_cons]
      constructor
      · intro q hq
        rcases mem_insertA hq with hmem | rfl
        · exact h1 q hmem
        · exact hk
      · exact ih h2

theorem nodupKeys_append_single {α : Type} {l : List (String × α)}
    {k : String} {v : α} (h : NoDupKeys l) (hk : ∀ p ∈ l, p.1 ≠ k) :
    NoDupKeys (l ++ [(k, v)]) := by
  unfold NoDupKeys
  rw [List.pairwise_append]
  refine ⟨h, List.pairwise_singleton _ _, fun p hp q hq => ?_⟩
  rcases List.mem_singleton.mp hq with rfl
  exact hk p hp

theorem nodupKeys_insertGroup (blocks : List (String × List (String × TFAttribute)))
    (b f : String) (v : TFAttribute) (h : NoDupKeys blocks) :
    NoDupKeys (insertGroup blocks b f v) := by
  unfold insertGroup
  cases hlk : lookupA blocks b with
  | some battrs => exact nodupKeys_insertA _ _ h
  | none => exact nodupKeys_append_single h (lookupA_none_forall hlk)

theorem lookupA_of_mem_nodup {α : Type} {l : List (String × α)}
    {k : String} {v : α} (hnd : NoDupKeys l) (h : (k, v) ∈ l) :
    lookupA l k = some v := by
  induction l with
  | nil => cases h
  | cons q rest ih =>
    obtain ⟨k0, w⟩ := q
    unfold NoDupKeys at hnd
    rw [List.pairwise_cons] at hnd
    rcases List.mem_cons.mp h with heq | hmem
    · cases heq
      simp [lookupA]
    · have hne : k0 ≠ k := hnd.1 (k, v) hmem
      simp [lookupA, hne]
      exact ih hnd.2 hmem

theorem mem_insertGroup {g : List (String × List (String × TFAttribute))}
    {b f : String} {v : TFAttribute} {bg : String × List (String × TFAttribute)}
    (h : bg ∈ insertGroup g b f v) : bg ∈ g ∨ bg.1 = b := by
  unfold insertGroup at h
  split at h
  · rcases mem_insertA h with hm | rfl
    · exact Or.inl hm
    · exact Or.inr rfl
  · rcases List.mem_append.mp h with hm | hm
    · exact Or.inl hm
    · rcases List.mem_singleton.mp hm with rfl
      exact Or.inr rfl

theorem lookupA_insertGroup_ne (g : List (String × List (String × TFAttribute)))
    (b f : String) (v : TFAttribute) (bname : String) (h : bname ≠ b) :
    lookupA (insertGroup g b f v) bname = lookupA g bname := by
  unfold insertGroup
  cases hlk : lookupA g b with
  | some battrs => exact lookupA_insertA_ne _ _ _ _ h
  | none =>
    cases hg : lookupA g bname with
    | some x => exact lookupA_append_some _ hg
    | none =>
      rw [lookupA_append_none _ hg]
      have hne : ¬b = bname := fun he => h he.symm
      simp [lookupA, hne]

theorem lookupA_insertGroup_self (g : List (String × List (String × TFAttribute)))
    (b f : String) (v : TFAttribute)
    (hcons : ∀ battrs, lookupA g b = some battrs → lookupA battrs f = none) :
    lookupA (insertGroup g b f v) b =
      some ((match lookupA g b with
             | some battrs => battrs
             | none => []) ++ [(f, v)]) := by
  unfold insertGroup
  cases hlk : lookupA g b with
  | some battrs =>
    rw [lookupA_insertA_self, insertA_of_lookup_none v (hcons battrs hlk)]
  | none =>
    rw [lookupA_append_none _ hlk]
    simp [lookupA]

/-- Every key of the grouped blocks map is a non-empty block name. -/
theorem groupFold_keys_ne_empty (infos : List AttrInfo) :
    ∀ g, (∀ bg ∈ g, bg.1 ≠ "") →
      ∀ bg ∈ infos.foldl groupStep g, bg.1 ≠ "" := by
  induction infos with
  | nil =>
    intro g hg
    simpa using hg
  | cons i is ih =>
    intro g hg
    simp only [List.foldl_cons]
    apply ih
    intro bg hbg
    unfold groupStep at hbg
    split at hbg
    · next hne =>
      rcases mem_insertGroup hbg with hm | hkey
      · exact hg bg hm
      · rw [hkey]
        exact hne
    · exact hg bg hbg

/-- The grouped blocks map keeps pairwise-distinct keys. -/
theorem groupFold_nodup (infos : List AttrInfo) :
    ∀ g, NoDupKeys g → NoDupKeys (infos.foldl groupStep g) := by
  induction infos with
  | nil =>
    intro g hg
    simpa using hg
  | cons i is ih =>
    intro g hg
    simp only [List.foldl_cons]
    apply ih
    unfold groupStep
    split
    · exact nodupKeys_insertGroup _ _ _ _ hg
    · exact hg

/-- The required-flag characterization of grouped blocks: when the
descriptors' (block, field) pairs are pairwise distinct and no group of
the incoming map already holds a to-be-added field, a block's members
contain a required leaf exactly when the incoming group did or some
grouped descriptor's converted attribute is required. -/
theorem groupFold_any (bname : String) (hbn : bname ≠ "") :
    ∀ (infos : List AttrInfo) (g : List (String × List (String × TFAttribute))),
    (∀ i ∈ infos, ∀ battrs, lookupA g i.tfBlock = some battrs →
      lookupA battrs i.tfField = none) →
    (infos.Pairwise fun i j =>
      ¬(i.tfBlock = j.tfBlock ∧ i.tfField = j.tfField)) →
    ∀ battrs, lookupA (infos.foldl groupStep g) bname = some battrs →
      blockAnyRequired battrs =
        ((lookupA g bname).elim false blockAnyRequired ||
          infos.any fun i =>
            decide (i.tfBlock = bname) && leafRequired (kaiakAttrToTF i.attr)) := by
  intro infos
  induction infos with
  | nil =>
    intro g _ _ battrs h
    simp only [List.foldl_nil] at h
    simp [h]
  | cons i is ih =>
    intro g hcons hpair battrs h
    rw [List.pairwise_cons] at hpair
    obtain ⟨hpi, hpis⟩ := hpair
    simp only [List.foldl_cons] at h
    by_cases hblk : i.tfBlock = ""
    · have hg' : groupStep g i = g := by simp [groupStep, hblk]
      rw [hg'] at h
      have hres := ih g (fun j hj => hcons j (List.mem_cons_of_mem _ hj))
        hpis battrs h
      rw [hres]
      have hd : decide (i.tfBlock = bname) = false := by
        rw [hblk]
        exact decide_eq_false fun he => hbn he.symm
      simp [hd]
    · have hg' : groupStep g i =
          insertGroup g i.tfBlock i.tfField (kaiakAttrToTF i.attr) := by
        simp [groupStep, hblk]
      rw [hg'] at h
      have hconsHead : ∀ battrs, lookupA g i.tfBlock = some battrs →
          lookupA battrs i.tfField = none :=
        fun bs hbs => hcons i (List.mem_cons_self _ _) bs hbs
      have hcons' : ∀ j ∈ is, ∀ battrs,
          lookupA (insertGroup g i.tfBlock i.tfField (kaiakAttrToTF i.attr))
            j.tfBlock = some battrs →
          lookupA battrs j.tfField = none := by
        intro j hj battrs' hlk
        by_cases hjb : j.tfBlock = i.tfBlock
        · rw [hjb, lookupA_insertGroup_self g _ _ _ hconsHead] at hlk
          injection hlk with hlk
          rw [← hlk]
          have hfne : i.tfField ≠ j.tfField :=
            fun hf => hpi j hj ⟨hjb.symm, hf⟩
          have htail : lookupA [(i.tfField, kaiakAttrToTF i.attr)] j.tfField
              = none := by
            simp [lookupA, hfne]
          cases hX : lookupA g i.tfBlock with
          | some bs =>
            have hbsf : lookupA bs j.tfField = none := by
              apply hcons j (List.mem_cons_of_mem _ hj)
              rw [hjb]
              exact hX
            show lookupA (bs ++ [(i.tfField, kaiakAttrToTF i.attr)])
              j.tfField = none
            rw [lookupA_append_none _ hbsf]
            exact htail
          | none =>
            show lookupA ([] ++ [(i.tfField, kaiakAttrToTF i.attr)])
              j.tfField = none
            simpa using htail
        · rw [lookupA_insertGroup_ne g _ _ _ _ hjb] at hlk
          exact hcons j (List.mem_cons_of_mem _ hj) battrs' hlk
      have hres := ih _ hcons' hpis battrs h
      rw [hres]
      by_cases hbb : bname = i.tfBlock
      · rw [hbb, lookupA_insertGroup_self g _ _ _ hconsHead]
        have hd : decide (i.tfBlock = i.tfBlock) = true := by simp
        cases hX : lookupA g i.tfBlock with
        | some bs =>
          simp [blockAnyRequired, List.any_append, Bool.or_assoc]
        | none =>
          simp [blockAnyRequired, Bool.or_assoc]
      · rw [lookupA_insertGroup_ne g _ _ _ _ hbb]
        have hd : decide (i.tfBlock = bname) = false :=
          decide_eq_false fun he => hbb he.symm
        simp [hd]

end GroupLemmas

section TopAndLoopLemmas

theorem any_over_map {α β : Type} (f : α → β) (l : List α) (p : β → Bool) :
    (l.map f).any p = l.any fun a => p (f a) := by
  induction l with
  | nil => rfl
  | cons x xs ih => simp [ih]

theorem isLeafTF_kaiakAttrToTF (a : KAttribute) :
    isLeafTF (kaiakAttrToTF a) = true := by
  unfold kaiakAttrToTF
  split
  · rfl
  · split
    · rfl
    · split
      · rfl
      · split
        · rfl
        · split
          · rfl
          · rfl

/-- Every entry of the top-level attribute map is a leaf attribute:
blocks enter the map only in the later block-conversion loop. -/
theorem topFold_leaves (infos : List AttrInfo) :
    ∀ t : List (String × TFAttribute),
    (∀ p ∈ t, isLeafTF p.2 = true) →
    ∀ p ∈ infos.foldl topStep t, isLeafTF p.2 = true := by
  induction infos with
  | nil =>
    intro t ht
    simpa using ht
  | cons i is ih =>
    intro t ht
    simp only [List.foldl_cons]
    apply ih
    intro p hp
    unfold topStep at hp
    split at hp
    · exact ht p hp
    · rcases mem_insertA hp with hmem | rfl
      · exact ht p hmem
      · exact isLeafTF_kaiakAttrToTF _

/-- Every entry of the final attribute map is an original top-level
entry or the nested conversion of one of the grouped blocks. -/
theorem blockFold_mem (blocks : List (String × List (String × TFAttribute))) :
    ∀ (acc : List (String × TFAttribute)) (p : String × TFAttribute),
    p ∈ blocks.foldl blockStep acc →
    p ∈ acc ∨ ∃ bg ∈ blocks,
      p = (bg.1, .nested bg.2 (blockAnyRequired bg.2)
        (!blockAnyRequired bg.2) (!blockAnyRequired bg.2)) := by
  induction blocks with
  | nil =>
    intro acc p hp
    exact Or.inl (by simpa using hp)
  | cons bg bgs ih =>
    intro acc p hp
    simp only [List.foldl_cons] at hp
    rcases ih _ p hp with hacc | ⟨bg', hbg', hpeq⟩
    · unfold blockStep at hacc
      rcases mem_insertA hacc with hmem | rfl
      · exact Or.inl hmem
      · exact Or.inr ⟨bg, List.mem_cons_self _ _, rfl⟩
    · exact Or.inr ⟨bg', List.mem_cons_of_mem _ hbg', hpeq⟩

/-- On the no-error path the detection loop accepts every descriptor in
order, so the attrInfo table is exactly the mapped descriptor list. -/
theorem buildLoop_infos_of_no_error (r : String) :
    ∀ (attrs : List KAttribute) (seen : List (String × String))
      (infos0 : List AttrInfo) (diags : List Diagnostic),
    hasError (buildLoop r attrs seen infos0 diags).2.2 = false →
    (buildLoop r attrs seen infos0 diags).2.1 =
      infos0 ++ attrs.map newAttrInfo := by
  intro attrs
  induction attrs with
  | nil =>
    intro seen infos0 diags h
    simp [buildLoop]
  | cons a rest ih =>
    intro seen infos0 diags h
    unfold buildLoop at h ⊢
    dsimp only at h ⊢
    by_cases hres : (newAttrInfo a).tfBlock = "" ∧
        ((newAttrInfo a).tfField = "name" ∨ (newAttrInfo a).tfField = "id")
    · rw [if_pos hres] at h
      rw [buildLoop_error_monotone r rest seen infos0 _
        (hasError_addError diags _ _)] at h
      cases h
    · rw [if_neg hres] at h ⊢
      cases hlk : lookupA seen
          ((newAttrInfo a).tfBlock ++ "/" ++ (newAttrInfo a).tfField) with
      | some prev =>
        simp only [hlk] at h
        rw [buildLoop_error_monotone r rest seen infos0 _
          (hasError_addError diags _ _)] at h
        cases h
      | none =>
        simp only [hlk] at h ⊢
        rw [ih _ _ _ h]
        simp

end TopAndLoopLemmas

/-- Claim C3: in a successfully translated schema, a block is marked
required exactly when at least one descriptor grouped into it is flagged
required, and a block with zero required members is optional and
computed. -/
theorem C3_block_required_iff (r : String) (attrs : List KAttribute)
    (s : TFSchema) (infos : List AttrInfo) (diags : List Diagnostic)
    (h : buildResourceSchema r attrs = (s, some infos, diags)) :
    ∀ bname battrs req opt comp,
      (bname, TFAttribute.nested battrs req opt comp) ∈ s.attributes →
      req = (attrs.any fun a =>
        decide ((newAttrInfo a).tfBlock = bname) && a.required) ∧
      opt = !req ∧ comp = !req := by
  intro bname battrs req opt comp hmem
  unfold buildResourceSchema at h
  dsimp only at h
  split at h
  · simp at h
  · next herr =>
    have herrF : hasError (buildLoop r attrs [] [] []).2.2 = false := by
      simpa using herr
    simp only [Prod.mk.injEq, Option.some.injEq] at h
    obtain ⟨hS, hI, hD⟩ := h
    obtain ⟨_, _, _, hpw⟩ :=
      buildLoop_no_error_invariants r attrs [] [] [] herrF
    have hinfos : (buildLoop r attrs [] [] []).2.1 = attrs.map newAttrInfo := by
      rw [buildLoop_infos_of_no_error r attrs [] [] [] herrF]
      simp
    rw [← hS] at hmem
    simp only at hmem
    rw [hinfos] at hmem
    rcases blockFold_mem _ _ _ hmem with htop | ⟨bg, hbg, hpeq⟩
    · have := topFold_leaves _ _
        (by intro p hp
            rcases List.mem_cons.mp hp with rfl | hp
            · rfl
            · rcases List.mem_cons.mp hp with rfl | hp
              · rfl
              · cases hp)
        _ htop
      simp [isLeafTF] at this
    · have hinj := Prod.mk.injEq .. ▸ hpeq
      simp only [Prod.mk.injEq, TFAttribute.nested.injEq] at hinj
      obtain ⟨hbn, hbat, hreq, hopt, hcomp⟩ := hinj
      have hbgNe : bg.1 ≠ "" :=
        groupFold_keys_ne_empty _ [] (by simp) bg hbg
      have hbgLk : lookupA ((attrs.map newAttrInfo).foldl groupStep []) bg.1 =
          some bg.2 := by
        apply lookupA_of_mem_nodup _ hbg
        exact groupFold_nodup _ [] (by simp [NoDupKeys])
      have hpairPairs : (attrs.map newAttrInfo).Pairwise fun i j =>
          ¬(i.tfBlock = j.tfBlock ∧ i.tfField = j.tfField) := by
        rw [List.pairwise_map]
        refine hpw.imp ?_
        intro a b hk ⟨hb, hf⟩
        apply hk
        unfold derivedKey
        rw [hb, hf]
      have hany := groupFold_any bg.1 hbgNe (attrs.map newAttrInfo) []
        (by intro j hj battrs' hlk
            cases hlk)
        hpairPairs bg.2 hbgLk
      have hanyAttrs : blockAnyRequired bg.2 =
          attrs.any fun a =>
            decide ((newAttrInfo a).tfBlock = bg.1) && a.required := by
        rw [hany]
        simp only [lookupA, Option.elim, Bool.false_or,
          leafRequired_kaiakAttrToTF]
        rw [any_over_map]
        simp only [newAttrInfo_attr]
      refine ⟨?_, ?_, ?_⟩
      · rw [hreq, hbn]
        exact hanyAttrs
      · rw [hopt, hreq]
      · rw [hcomp, hreq]

/-- Witness for C3 at a two-member block where one member is required:
the `tls` block of the translated schema is required (and not
optional or computed), as the theorem instantiates. -/
theorem C3_block_required_iff_witness :
    true = ([{ name := "tls.cert", type := "string", required := true },
             { name := "tls.key", type := "string" }] :
              List KAttribute).any
        (fun a => decide ((newAttrInfo a).tfBlock = "tls") && a.required) ∧
      false = !true ∧ false = !true := by
  have hb : buildResourceSchema "httpserver"
      [{ name := "tls.cert", type := "string", required := true },
       { name := "tls.key", type := "string" }] =
      ((buildResourceSchema "httpserver"
        [{ name := "tls.cert", type := "string", required := true },
         { name := "tls.key", type := "string" }]).1,
       some (([{ name := "tls.cert", type := "string", required := true },
               { name := "tls.key", type := "string" }] :
                List KAttribute).map newAttrInfo),
       (buildResourceSchema "httpserver"
        [{ name := "tls.cert", type := "string", required := true },
         { name := "tls.key", type := "string" }]).2.2) := rfl
  exact C3_block_required_iff "httpserver" _ _ _ _ hb "tls"
    [("cert", kaiakAttrToTF { name := "tls.cert", type := "string", required := true }),
     ("key", kaiakAttrToTF { name := "tls.key", type := "string" })]
    true false false
    (List.Mem.tail _ (List.Mem.tail _ (List.Mem.head _)))

/-- Whether a terraform value is a known, non-null value (the condition
`!v.IsNull() && !v.IsUnknown()` of the extraction helpers). -/
def knownNonNull : TFValue → Bool
  | .boolV _ => true
  | .int64V _ => true
  | .float64V _ => true
  | .stringV _ => true
  | .listV _ _ => true
  | .mapV _ _ => true
  | .objV _ _ => true
  | _ => false

/-- The claim-side condition under which extraction may read a value for
an attribute: a top-level attribute's own value is known and non-null;
a block member's parent object is a known object that carries a known,
non-null value for the member's field. -/
def sourceKnown (src : AttrGetter) (i : AttrInfo) : Prop :=
  if i.tfBlock = "" then knownNonNull (src i.tfField) = true
  else ∃ tys battrs, src i.tfBlock = .objV tys battrs ∧
    ∃ mv, lookupA battrs i.tfField = some mv ∧ knownNonNull mv = true

section ExtractLemmas

theorem mem_of_lookupA {α : Type} {l : List (String × α)} {k : String} {v : α}
    (h : lookupA l k = some v) : (k, v) ∈ l := by
  induction l with
  | nil => cases h
  | cons p rest ih =>
    obtain ⟨k0, w⟩ := p
    unfold lookupA at h
    by_cases hk : k0 = k
    · rw [if_pos hk] at h
      injection h with h
      rw [← hk, ← h]
      exact List.mem_cons_self _ _
    · rw [if_neg hk] at h
      exact List.mem_cons_of_mem _ (ih h)

/-- Whatever `extractSingleAttr` adds to the state is keyed by the
attribute's kaiak name and requires a known, non-null source value. -/
theorem extractSingleAttr_lookup (src : AttrGetter) (p : String)
    (i : AttrInfo) (st : KState) (d : List Diagnostic) (k : String)
    (v : Option KValue)
    (h : lookupA (extractSingleAttr src p i st d).1 k = some v) :
    lookupA st k = some v ∨
      (i.kaiakName = k ∧ knownNonNull (src p) = true) := by
  unfold extractSingleAttr at h
  dsimp only at h
  by_cases hk : i.kaiakName = k
  · subst hk
    repeat' split at h
    all_goals
      first
        | exact Or.inl h
        | (right
           refine ⟨rfl, ?_⟩
           simp_all [knownNonNull])
  · have hk' : k ≠ i.kaiakName := fun he => hk he.symm
    left
    repeat' split at h
    all_goals
      first
        | exact h
        | (rwa [lookupA_insertA_ne _ _ _ _ hk'] at h)

/-- Whatever `extractBlockAttr` adds to the state is keyed by the
attribute's kaiak name and requires a known, non-null member value. -/
theorem extractBlockAttr_lookup (i : AttrInfo) (mv : TFValue) (st : KState)
    (k : String) (v : Option KValue)
    (h : lookupA (extractBlockAttr i mv st) k = some v) :
    lookupA st k = some v ∨ (i.kaiakName = k ∧ knownNonNull mv = true) := by
  unfold extractBlockAttr at h
  dsimp only at h
  by_cases hk : i.kaiakName = k
  · subst hk
    repeat' split at h
    all_goals
      first
        | exact Or.inl h
        | (right
           refine ⟨rfl, ?_⟩
           simp_all [knownNonNull])
  · have hk' : k ≠ i.kaiakName := fun he => hk he.symm
    left
    repeat' split at h
    all_goals
      first
        | exact h
        | (rwa [lookupA_insertA_ne _ _ _ _ hk'] at h)

/-- Every key of the top-level extraction pass comes from a writable,
block-less attribute with a known, non-null source value. -/
theorem extractTopFold_lookup (src : AttrGetter) :
    ∀ (infos : List AttrInfo) (acc : KState × List Diagnostic)
      (k : String) (v : Option KValue),
    lookupA (infos.foldl (extractTopStep src) acc).1 k = some v →
    lookupA acc.1 k = some v ∨
      ∃ i ∈ infos, i.kaiakName = k ∧ i.attr.readOnly = false ∧
        i.tfBlock = "" ∧ knownNonNull (src i.tfField) = true := by
  intro infos
  induction infos with
  | nil =>
    intro acc k v h
    exact Or.inl (by simpa using h)
  | cons i is ih =>
    intro acc k v h
    simp only [List.foldl_cons] at h
    rcases ih _ k v h with hstep | ⟨j, hj, hjp⟩
    · unfold extractTopStep at hstep
      split at hstep
      · next hskip => exact Or.inl hstep
      · next hskip =>
        rw [Bool.or_eq_true, not_or] at hskip
        obtain ⟨hro, hblk⟩ := hskip
        rcases extractSingleAttr_lookup src i.tfField i acc.1 acc.2 k v hstep
          with hacc | ⟨hkn, hknn⟩
        · exact Or.inl hacc
        · refine Or.inr ⟨i, List.mem_cons_self _ _, hkn, ?_, ?_, hknn⟩
          · simpa using hro
          · simpa using hblk
    · exact Or.inr ⟨j, List.mem_cons_of_mem _ hj, hjp⟩

/-- Members placed into a block group by the grouping pass are writable
block attributes of the processed list, grouped under their own block
name. -/
theorem extractGroupFold_mem :
    ∀ (infos : List AttrInfo) (g : List (String × List AttrInfo)),
    (∀ bg ∈ g, ∀ i ∈ bg.2,
      i.attr.readOnly = false ∧ i.tfBlock = bg.1 ∧ i.tfBlock ≠ "") →
    (∀ bg ∈ infos.foldl extractGroupStep g, ∀ i ∈ bg.2,
      (i ∈ infos ∨ ∃ bg0 ∈ g, i ∈ bg0.2) ∧
        i.attr.readOnly = false ∧ i.tfBlock = bg.1 ∧ i.tfBlock ≠ "") := by
  intro infos
  induction infos with
  | nil =>
    intro g hg bg hbg i hi
    exact ⟨Or.inr ⟨bg, hbg, hi⟩, hg bg hbg i hi⟩
  | cons a as ih =>
    intro g hg bg hbg i hi
    simp only [List.foldl_cons] at hbg
    have hg' : ∀ bg ∈ extractGroupStep g a, ∀ i ∈ bg.2,
        i.attr.readOnly = false ∧ i.tfBlock = bg.1 ∧ i.tfBlock ≠ "" := by
      intro bg' hbg' i' hi'
      unfold extractGroupStep at hbg'
      split at hbg'
      · exact hg bg' hbg' i' hi'
      · next hskip =>
        rw [Bool.or_eq_true, not_or] at hskip
        obtain ⟨hro, hblk⟩ := hskip
        unfold appendGroupInfo at hbg'
        split at hbg'
        · next is0 hlk =>
          rcases mem_insertA hbg' with hm | rfl
          · exact hg bg' hm i' hi'
          · rcases List.mem_append.mp hi' with hm | hm
            · exact hg _ (mem_of_lookupA hlk) i' hm
            · rcases List.mem_singleton.mp hm with rfl
              exact ⟨by simpa using hro, rfl, by simpa using hblk⟩
        · rcases List.mem_append.mp hbg' with hm | hm
          · exact hg bg' hm i' hi'
          · rcases List.mem_singleton.mp hm with rfl
            rcases List.mem_singleton.mp hi' with rfl
            exact ⟨by simpa using hro, rfl, by simpa using hblk⟩
    obtain ⟨hmem, hro, hblk⟩ := ih _ hg' bg hbg i hi
    refine ⟨?_, hro, hblk⟩
    rcases hmem with hm | ⟨bg0, hbg0, hi0⟩
    · exact Or.inl (List.mem_cons_of_mem _ hm)
    · unfold extractGroupStep at hbg0
      split at hbg0
      · exact Or.inr ⟨bg0, hbg0, hi0⟩
      · unfold appendGroupInfo at hbg0
        split at hbg0
        · next is0 hlk =>
          rcases mem_insertA hbg0 with hm0 | rfl
          · exact Or.inr ⟨bg0, hm0, hi0⟩
          · rcases List.mem_append.mp hi0 with hm0 | hm0
            · exact Or.inr ⟨_, mem_of_lookupA hlk, hm0⟩
            · rcases List.mem_singleton.mp hm0 with rfl
              exact Or.inl (List.mem_cons_self _ _)
        · rcases List.mem_append.mp hbg0 with hm0 | hm0
          · exact Or.inr ⟨bg0, hm0, hi0⟩
          · rcases List.mem_singleton.mp hm0 with rfl
            rcases List.mem_singleton.mp hi0 with rfl
            exact Or.inl (List.mem_cons_self _ _)

/-- Every key written by the member loop of one block comes from a
grouped member whose field is present and known in the fetched object. -/
theorem extractMemberFold_lookup (battrs : List (String × TFValue)) :
    ∀ (is : List AttrInfo) (st : KState) (k : String) (v : Option KValue),
    lookupA (is.foldl (extractMemberStep battrs) st) k = some v →
    lookupA st k = some v ∨
      ∃ i ∈ is, i.kaiakName = k ∧
        ∃ mv, lookupA battrs i.tfField = some mv ∧ knownNonNull mv = true := by
  intro is
  induction is with
  | nil =>
    intro st k v h
    exact Or.inl (by simpa using h)
  | cons i is' ih =>
    intro st k v h
    simp only [List.foldl_cons] at h
    rcases ih _ k v h with hstep | ⟨j, hj, hjp⟩
    · unfold extractMemberStep at hstep
      split at hstep
      · next mv hlk =>
        rcases extractBlockAttr_lookup i mv st k v hstep with hacc | ⟨hkn, hknn⟩
        · exact Or.inl hacc
        · exact Or.inr ⟨i, List.mem_cons_self _ _, hkn, mv, hlk, hknn⟩
      · exact Or.inl hstep
    · exact Or.inr ⟨j, List.mem_cons_of_mem _ hj, hjp⟩

/-- Every key written by the block loop comes from a grouped member of
one of the blocks whose parent object was fetched as a known object. -/
theorem extractBlockFold_lookup (src : AttrGetter) :
    ∀ (groups : List (String × List AttrInfo)) (acc : KState × List Diagnostic)
      (k : String) (v : Option KValue),
    lookupA (groups.foldl (extractBlockStep src) acc).1 k = some v →
    lookupA acc.1 k = some v ∨
      ∃ bg ∈ groups, ∃ i ∈ bg.2, i.kaiakName = k ∧
        ∃ tys battrs, src bg.1 = .objV tys battrs ∧
          ∃ mv, lookupA battrs i.tfField = some mv ∧ knownNonNull mv = true := by
  intro groups
  induction groups with
  | nil =>
    intro acc k v h
    exact Or.inl (by simpa using h)
  | cons bg bgs ih =>
    intro acc k v h
    simp only [List.foldl_cons] at h
    rcases ih _ k v h with hstep | ⟨bg', hbg', hp⟩
    · unfold extractBlockStep at hstep
      split at hstep
      · next tys battrs heq =>
        rcases extractMemberFold_lookup battrs bg.2 acc.1 k v hstep
          with hacc | ⟨i, hi, hkn, mv, hlk, hknn⟩
        · exact Or.inl hacc
        · exact Or.inr ⟨bg, List.mem_cons_self _ _, i, hi, hkn,
            tys, battrs, heq, mv, hlk, hknn⟩
      · exact Or.inl hstep
      · exact Or.inl hstep
      · exact Or.inl hstep
    · exact Or.inr ⟨bg', List.mem_cons_of_mem _ hbg', hp⟩

end ExtractLemmas

/-- Claim C10 (implicit): attribute extraction is filtering, never
inventing. The extracted state map holds a key only for a descriptor
that is non-read-only whose source value is known and non-null (for
block members: whose enclosing block object is itself a known object
carrying a known, non-null value for the member's field); null, unknown
and read-only attributes are always omitted. -/
theorem C10_extraction_filters (infos : List AttrInfo) (src : AttrGetter)
    (k : String) (v : Option KValue)
    (h : lookupA (extractAttrs infos src).1 k = some v) :
    ∃ i ∈ infos, i.kaiakName = k ∧ i.attr.readOnly = false ∧
      sourceKnown src i := by
  unfold extractAttrs at h
  dsimp only at h
  rcases extractBlockFold_lookup src _ _ k v h with htop | hblock
  · rcases extractTopFold_lookup src infos ([], []) k v htop
      with hnil | ⟨i, hi, hkn, hro, hblk, hknn⟩
    · cases hnil
    · refine ⟨i, hi, hkn, hro, ?_⟩
      unfold sourceKnown
      rw [if_pos hblk]
      exact hknn
  · obtain ⟨bg, hbg, i, hi, hkn, tys, battrs, heq, mv, hlk, hknn⟩ := hblock
    have hgm := extractGroupFold_mem infos [] (by simp) bg hbg i hi
    obtain ⟨hmem, hro, hblk, hbne⟩ := hgm
    rcases hmem with hm | ⟨bg0, hbg0, _⟩
    · refine ⟨i, hm, hkn, hro, ?_⟩
      unfold sourceKnown
      rw [if_neg hbne, hblk]
      exact ⟨tys, battrs, heq, mv, hlk, hknn⟩
    · cases hbg0

/-- Witness for C10: a writable top-level `int` attribute with a known
planned value yields an extracted entry, and the theorem locates the
descriptor, its writability and its known non-null source value. -/
theorem C10_extraction_filters_witness :
    ∃ i ∈ [newAttrInfo { name := "port", type := "int" }],
      i.kaiakName = "port" ∧ i.attr.readOnly = false ∧
      sourceKnown (fun p => if p = "port" then .int64V 8080 else .stringNull) i :=
  C10_extraction_filters [newAttrInfo { name := "port", type := "int" }]
    (fun p => if p = "port" then .int64V 8080 else .stringNull)
    "port" (some (.vint 8080)) rfl

section ExtractDiagLemmas

/-- `extractSingleAttr` only ever appends an error-severity diagnostic. -/
theorem extractSingleAttr_diags (src : AttrGetter) (p : String) (i : AttrInfo)
    (st : KState) (d : List Diagnostic) :
    ∀ x ∈ (extractSingleAttr src p i st d).2, x ∈ d ∨ x.severity = .error := by
  intro x hx
  unfold extractSingleAttr at hx
  dsimp only at hx
  repeat' split at hx
  all_goals
    first
      | exact Or.inl hx
      | (rcases List.mem_append.mp hx with hm | hm
         · exact Or.inl hm
         · rcases List.mem_singleton.mp hm with rfl
           exact Or.inr rfl)

/-- The top-level extraction pass only accumulates error diagnostics. -/
theorem extractTopFold_diags (src : AttrGetter) :
    ∀ (infos : List AttrInfo) (acc : KState × List Diagnostic),
    (∀ x ∈ acc.2, x.severity = .error) →
    ∀ x ∈ (infos.foldl (extractTopStep src) acc).2, x.severity = .error := by
  intro infos
  induction infos with
  | nil =>
    intro acc hacc
    simpa using hacc
  | cons i is ih =>
    intro acc hacc
    simp only [List.foldl_cons]
    apply ih
    intro x hx
    unfold extractTopStep at hx
    split at hx
    · exact hacc x hx
    · rcases extractSingleAttr_diags src i.tfField i acc.1 acc.2 x hx with hm | he
      · exact hacc x hm
      · exact he

/-- The block extraction pass only accumulates error diagnostics. -/
theorem extractBlockFold_diags (src : AttrGetter) :
    ∀ (groups : List (String × List AttrInfo)) (acc : KState × List Diagnostic),
    (∀ x ∈ acc.2, x.severity = .error) →
    ∀ x ∈ (groups.foldl (extractBlockStep src) acc).2, x.severity = .error := by
  intro groups
  induction groups with
  | nil =>
    intro acc hacc
    simpa using hacc
  | cons bg bgs ih =>
    intro acc hacc
    simp only [List.foldl_cons]
    apply ih
    intro x hx
    unfold extractBlockStep at hx
    split at hx
    · exact hacc x hx
    · exact hacc x hx
    · exact hacc x hx
    · rcases List.mem_append.mp hx with hm | hm
      · exact hacc x hm
      · rcases List.mem_singleton.mp hm with rfl
        rfl

/-- Every diagnostic produced by `extractAttrs` has error severity. -/
theorem extractAttrs_diags_error (infos : List AttrInfo) (src : AttrGetter) :
    ∀ x ∈ (extractAttrs infos src).2, x.severity = .error := by
  intro x hx
  unfold extractAttrs at hx
  dsimp only at hx
  exact extractBlockFold_diags src _ _
    (extractTopFold_diags src infos ([], []) (by simp)) x hx

/-- An error-free extraction produced no diagnostics at all. -/
theorem extractAttrs_no_error_nil (infos : List AttrInfo) (src : AttrGetter)
    (h : hasError (extractAttrs infos src).2 = false) :
    (extractAttrs infos src).2 = [] := by
  cases hd : (extractAttrs infos src).2 with
  | nil => rfl
  | cons x xs =>
    have hx : x.severity = .error :=
      extractAttrs_diags_error infos src x
        (by rw [hd]; exact List.mem_cons_self _ _)
    rw [hd] at h
    unfold hasError at h
    simp [hx] at h

end ExtractDiagLemmas

/-- Claim C8: whenever the attribute-apply step of Create fails after
the empty instance was created, Create attempts to destroy the
just-created instance and writes no state; if that destroy also fails,
the result carries both the fatal apply error and a separate
warning-severity diagnostic naming the orphaned instance; if the
destroy succeeds, only the fatal apply error is reported. -/
theorem C8_create_compensation (resourceName label : String)
    (infos : List AttrInfo) (client : ClientBehavior) (plan : AttrGetter)
    (ue : String)
    (hc : client.createErr = none)
    (hex : hasError (extractAttrs infos plan).2 = false)
    (hne : (extractAttrs infos plan).1.isEmpty = false)
    (hu : client.updateErr = some ue) :
    ClientCall.destroyInstance (resourceName ++ "." ++ label) false ∈
      (createOp resourceName label infos client plan).calls ∧
    (createOp resourceName label infos client plan).writes = [] ∧
    (∀ de, client.destroyErr = some de →
      (createOp resourceName label infos client plan).diags =
        [⟨.warning, "Cleanup failed",
          cleanupDetail (resourceName ++ "." ++ label)
            "applying attributes failed" de⟩,
         ⟨.error, "Failed to apply attributes", ue⟩]) ∧
    (client.destroyErr = none →
      (createOp resourceName label infos client plan).diags =
        [⟨.error, "Failed to apply attributes", ue⟩]) := by
  have hnil := extractAttrs_no_error_nil infos plan hex
  refine ⟨?_, ?_, ?_, ?_⟩
  · simp [createOp, hc, hu, hex, hne]
  · simp [createOp, hc, hu, hex, hne]
  · intro de hde
    simp [createOp, hc, hu, hex, hne, hde, hnil, addWarning, addError, hasError]
  · intro hde
    simp [createOp, hc, hu, hex, hne, hde, hnil, addError, hasError]

/-- Witness for C8 with a one-attribute plan whose apply fails: when the
compensating destroy also fails the outcome holds the destroy call, the
warning naming the instance and the fatal apply error; when the destroy
succeeds only the fatal apply error remains. -/
theorem C8_create_compensation_witness :
    ClientCall.destroyInstance ("httpserver" ++ "." ++ "tf_a1") false ∈
      (createOp "httpserver" "tf_a1" [newAttrInfo { name := "port", type := "int" }]
        ⟨none, some "boom", some "cleanupfail", .ok []⟩
        (fun p => if p = "port" then .int64V 1 else .stringNull)).calls ∧
    (createOp "httpserver" "tf_a1" [newAttrInfo { name := "port", type := "int" }]
        ⟨none, some "boom", some "cleanupfail", .ok []⟩
        (fun p => if p = "port" then .int64V 1 else .stringNull)).diags =
      [⟨.warning, "Cleanup failed",
        cleanupDetail ("httpserver" ++ "." ++ "tf_a1")
          "applying attributes failed" "cleanupfail"⟩,
       ⟨.error, "Failed to apply attributes", "boom"⟩] ∧
    (createOp "httpserver" "tf_a1" [newAttrInfo { name := "port", type := "int" }]
        ⟨none, some "boom", none, .ok []⟩
        (fun p => if p = "port" then .int64V 1 else .stringNull)).diags =
      [⟨.error, "Failed to apply attributes", "boom"⟩] := by
  refine ⟨?_, ?_, ?_⟩
  · exact (C8_create_compensation "httpserver" "tf_a1"
      [newAttrInfo { name := "port", type := "int" }]
      ⟨none, some "boom", some "cleanupfail", .ok []⟩
      (fun p => if p = "port" then .int64V 1 else .stringNull)
      "boom" rfl rfl rfl rfl).1
  · exact (C8_create_compensation "httpserver" "tf_a1"
      [newAttrInfo { name := "port", type := "int" }]
      ⟨none, some "boom", some "cleanupfail", .ok []⟩
      (fun p => if p = "port" then .int64V 1 else .stringNull)
      "boom" rfl rfl rfl rfl).2.2.1 "cleanupfail" rfl
  · exact (C8_create_compensation "httpserver" "tf_a1"
      [newAttrInfo { name := "port", type := "int" }]
      ⟨none, some "boom", none, .ok []⟩
      (fun p => if p = "port" then .int64V 1 else .stringNull)
      "boom" rfl rfl rfl rfl).2.2.2 rfl

end Kaiak
